import Mathlib

/-!
# director: stem store and HTTP handlers

A shallow embedding of `main.go` of christian-blades-cb/director.

* Go strings and byte slices are finite byte sequences (`GoString`);
  `[]byte(s)` and `fmt.Sprintf("%s", b)` keep the bytes as they are.
* A run-time panic of the Go program is an `Except.error`.
* The bolt key-value library is embedded by what its calls do to the pages of
  the database file: the root bucket maps bucket names to buckets, a bucket
  maps keys to values, both kept in the byte order of `bytes.Compare`.
  Buckets hold plain key/value pairs only (this program never nests buckets),
  and disk I/O is taken to succeed.
* `net/http` is embedded by what its calls write to the response:
  `http.Redirect(w, req, urlStr, code)` by the `Location` header it sets (the
  target resolved against the request path when `url.Parse` finds neither a
  scheme nor a host in it) and the code, `http.Error(w, error, code)` by its
  text and code; the `http.ServeMux` of the redirector by its redirect to the
  clean path, its match of the pattern `/` and its `NotFound`.
* Flag parsing, logging, the two listeners and their goroutines, and the JSON
  encoding of the listing are not part of the embedding.
-/

namespace Director

/-! ## Go values -/

/-- A Go string or byte slice: its bytes in order, each a natural number below 256. -/
abbrev GoString := List Nat

/-- The bytes of an ASCII string literal. -/
def goStr (s : String) : GoString := s.data.map Char.toNat

/-- The run-time panics this program can raise. -/
inductive Panic where
  | nilPointer
  | sliceBounds
  | closedChannel
  deriving DecidableEq

/-- Go's `s[i:]`: the bytes from index `i` on; it panics when `i` exceeds the length. -/
def sliceFrom (s : GoString) (i : Nat) : Except Panic GoString :=
  if i ≤ s.length then .ok (s.drop i) else .error .sliceBounds

/-! ## unicode/utf8 and strings.TrimSpace -/

def RuneError : Nat := 0xFFFD

def RuneSelf : Nat := 0x80

/-- Go's `utf8.DecodeRuneInString`: the first rune of `s` and its width in bytes;
`(RuneError, 1)` for an encoding that is not well formed, `(RuneError, 0)` for
the empty string. -/
def DecodeRuneInString (s : GoString) : Nat × Nat :=
  match s with
  | [] => (RuneError, 0)
  | s0 :: rest =>
    if s0 < RuneSelf then (s0, 1)
    else if 0xC2 ≤ s0 ∧ s0 ≤ 0xDF then
      match rest with
      | s1 :: _ =>
        if 0x80 ≤ s1 ∧ s1 ≤ 0xBF then ((s0 % 0x20) * 0x40 + s1 % 0x40, 2)
        else (RuneError, 1)
      | [] => (RuneError, 1)
    else if 0xE0 ≤ s0 ∧ s0 ≤ 0xEF then
      let lo := if s0 = 0xE0 then 0xA0 else 0x80
      let hi := if s0 = 0xED then 0x9F else 0xBF
      match rest with
      | s1 :: s2 :: _ =>
        if lo ≤ s1 ∧ s1 ≤ hi ∧ 0x80 ≤ s2 ∧ s2 ≤ 0xBF then
          ((s0 % 0x10) * 0x1000 + (s1 % 0x40) * 0x40 + s2 % 0x40, 3)
        else (RuneError, 1)
      | _ => (RuneError, 1)
    else if 0xF0 ≤ s0 ∧ s0 ≤ 0xF4 then
      let lo := if s0 = 0xF0 then 0x90 else 0x80
      let hi := if s0 = 0xF4 then 0x8F else 0xBF
      match rest with
      | s1 :: s2 :: s3 :: _ =>
        if lo ≤ s1 ∧ s1 ≤ hi ∧ 0x80 ≤ s2 ∧ s2 ≤ 0xBF ∧ 0x80 ≤ s3 ∧ s3 ≤ 0xBF then
          ((s0 % 0x08) * 0x40000 + (s1 % 0x40) * 0x1000 + (s2 % 0x40) * 0x40 + s3 % 0x40, 4)
        else (RuneError, 1)
      | _ => (RuneError, 1)
    else (RuneError, 1)

/-- Go's `utf8.RuneStart`: the byte is not a continuation byte. -/
def RuneStart (b : Nat) : Bool := decide (b / 0x40 % 4 ≠ 2)

/-- The backward scan of `utf8.DecodeLastRuneInString`: called with `start + 1`,
it steps `start` down while `start >= lim` and the byte there starts no rune,
and gives the `start` the loop ends with (`-1` when it runs off the string). -/
def scanBack (s : GoString) (lim : Nat) : Nat → Int
  | 0 => -1
  | n + 1 =>
    if n < lim then (n : Int)
    else if RuneStart (s.getD n 0) then (n : Int)
    else scanBack s lim n

/-- Go's `utf8.DecodeLastRuneInString`: the last rune of `s` and its width. -/
def DecodeLastRuneInString (s : GoString) : Nat × Nat :=
  let n := s.length
  if n = 0 then (RuneError, 0)
  else
    let r := s.getD (n - 1) 0
    if r < RuneSelf then (r, 1)
    else
      let start := (scanBack s (n - 4) (n - 1)).toNat
      let (r, size) := DecodeRuneInString (s.drop start)
      if start + size ≠ n then (RuneError, 1) else (r, size)

/-- Go's `utf8.RuneCountInString`, with the remaining bytes as fuel: the number
of runes in `s`, a byte that is not part of a well-formed encoding counting as
one rune. -/
def runeCountLoop : Nat → GoString → Nat
  | 0, _ => 0
  | fuel + 1, s =>
    match s with
    | [] => 0
    | _ :: _ => 1 + runeCountLoop fuel (s.drop (DecodeRuneInString s).2)

def RuneCountInString (s : GoString) : Nat := runeCountLoop s.length s

/-- Go's `unicode.IsSpace`: the runes with the Unicode White_Space property. -/
def IsSpace (r : Nat) : Bool :=
  if r ≤ 0xFF then
    r = 0x09 || r = 0x0A || r = 0x0B || r = 0x0C || r = 0x0D || r = 0x20 || r = 0x85 || r = 0xA0
  else
    r = 0x1680 || (decide (0x2000 ≤ r) && decide (r ≤ 0x200A)) || r = 0x2028 || r = 0x2029
      || r = 0x202F || r = 0x205F || r = 0x3000

/-- The loop of Go's `strings.indexFunc(s, f, truth)` from byte index `start`:
the index of the first rune `r` with `f r = truth`, or `-1`. -/
def indexFuncLoop (s : GoString) (f : Nat → Bool) (truth : Bool) : Nat → Nat → Int
  | 0, _ => -1
  | fuel + 1, start =>
    if start < s.length then
      let rw := if s.getD start 0 ≥ RuneSelf then DecodeRuneInString (s.drop start)
                else (s.getD start 0, 1)
      if f rw.1 = truth then (start : Int)
      else indexFuncLoop s f truth fuel (start + rw.2)
    else -1

def indexFunc (s : GoString) (f : Nat → Bool) (truth : Bool) : Int :=
  indexFuncLoop s f truth (s.length + 1) 0

/-- The loop of Go's `strings.lastIndexFunc(s, f, truth)` with `i` bytes left:
the index of the last rune `r` with `f r = truth`, or `-1`. -/
def lastIndexFuncLoop (s : GoString) (f : Nat → Bool) (truth : Bool) : Nat → Nat → Int
  | 0, _ => -1
  | fuel + 1, i =>
    if 0 < i then
      let rs := DecodeLastRuneInString (s.take i)
      let j := i - rs.2
      if f rs.1 = truth then (j : Int)
      else lastIndexFuncLoop s f truth fuel j
    else -1

def lastIndexFunc (s : GoString) (f : Nat → Bool) (truth : Bool) : Int :=
  lastIndexFuncLoop s f truth (s.length + 1) s.length

/-- Go's `strings.TrimLeftFunc`. -/
def TrimLeftFunc (s : GoString) (f : Nat → Bool) : GoString :=
  let i := indexFunc s f false
  if i = -1 then [] else s.drop i.toNat

/-- Go's `strings.TrimRightFunc`. -/
def TrimRightFunc (s : GoString) (f : Nat → Bool) : GoString :=
  let i := lastIndexFunc s f false
  if 0 ≤ i ∧ s.getD i.toNat 0 ≥ RuneSelf then
    s.take (i.toNat + (DecodeRuneInString (s.drop i.toNat)).2)
  else s.take (i + 1).toNat

/-- Go's `strings.TrimSpace`: `s` without its leading and trailing white space. -/
def TrimSpace (s : GoString) : GoString :=
  TrimRightFunc (TrimLeftFunc s IsSpace) IsSpace

/-! ## bolt -/

/-- Go's `bytes.Compare`: lexicographic order of byte sequences. -/
def bytesCompare : GoString → GoString → Ordering
  | [], [] => .eq
  | [], _ :: _ => .lt
  | _ :: _, [] => .gt
  | a :: as, b :: bs =>
    if a < b then .lt else if b < a then .gt else bytesCompare as bs

/-- The errors of bolt that depend on the arguments of a call. -/
inductive BoltError where
  | ErrBucketNameRequired
  | ErrKeyRequired
  | ErrKeyTooLarge
  | ErrValueTooLarge
  deriving DecidableEq

/-- bolt's `MaxKeySize`, the largest key in bytes. -/
def MaxKeySize : Nat := 32768

/-- bolt's `MaxValueSize`, the largest value in bytes: `(1 << 31) - 2`. -/
def MaxValueSize : Nat := 2 ^ 31 - 2

/-- The leaf entries of a bucket in cursor order. -/
abbrev Pairs (α : Type) := List (GoString × α)

/-- A cursor seek followed by a read: the value at the first entry whose key is
not below `k`, when that key is `k`. -/
def seekGet {α : Type} (k : GoString) : Pairs α → Option α
  | [] => none
  | (k', v') :: rest =>
    match bytesCompare k k' with
    | .lt => none
    | .eq => some v'
    | .gt => seekGet k rest

/-- A cursor seek followed by `node.put`: the entry at the first key not below
`k` is replaced when its key is `k`, and `(k, v)` is inserted before it
otherwise. -/
def seekPut {α : Type} (k : GoString) (v : α) : Pairs α → Pairs α
  | [] => [(k, v)]
  | (k', v') :: rest =>
    match bytesCompare k k' with
    | .lt => (k, v) :: (k', v') :: rest
    | .eq => (k, v) :: rest
    | .gt => (k', v') :: seekPut k v rest

/-- The pages of a bolt database: the root bucket, from bucket name to bucket. -/
abbrev BoltDB := Pairs (Pairs GoString)

/-- A `*bolt.Bucket` of a transaction: the name it was opened under. -/
structure Bucket where
  name : GoString
  deriving DecidableEq

/-- bolt's `Tx.Bucket`: the bucket of that name, `nil` (none) if there is none. -/
def Tx.Bucket (tx : BoltDB) (name : GoString) : Option Bucket :=
  match seekGet name tx with
  | some _ => some ⟨name⟩
  | none => none

/-- bolt's `Tx.CreateBucketIfNotExists`: the error and the pages afterwards. -/
def Tx.CreateBucketIfNotExists (tx : BoltDB) (name : GoString) : Option BoltError × BoltDB :=
  if name.length = 0 then (some .ErrBucketNameRequired, tx)
  else
    match seekGet name tx with
    | some _ => (none, tx)
    | none => (none, seekPut name [] tx)

/-- bolt's `Bucket.Get`: the value under `key`, `nil` (none) when the key is
absent; a nil bucket panics. -/
def Bucket.Get (tx : BoltDB) (b : Option Bucket) (key : GoString) :
    Except Panic (Option GoString) :=
  match b with
  | none => .error .nilPointer
  | some b =>
    match seekGet b.name tx with
    | none => .error .nilPointer
    | some pairs => .ok (seekGet key pairs)

/-- bolt's `Bucket.Put`: it refuses an empty key, a key over `MaxKeySize` and a
value over `MaxValueSize`, and otherwise sets the key; a nil bucket panics. -/
def Bucket.Put (tx : BoltDB) (b : Option Bucket) (key value : GoString) :
    Except Panic (Option BoltError × BoltDB) :=
  match b with
  | none => .error .nilPointer
  | some b =>
    match seekGet b.name tx with
    | none => .error .nilPointer
    | some pairs =>
      if key.length = 0 then .ok (some .ErrKeyRequired, tx)
      else if key.length > MaxKeySize then .ok (some .ErrKeyTooLarge, tx)
      else if value.length > MaxValueSize then .ok (some .ErrValueTooLarge, tx)
      else .ok (none, seekPut b.name (seekPut key value pairs) tx)

/-- A cursor walk from `First` by `Next`: the entries of the bucket in order; a
nil bucket panics. -/
def Bucket.Cursor (tx : BoltDB) (b : Option Bucket) : Except Panic (Pairs GoString) :=
  match b with
  | none => .error .nilPointer
  | some b =>
    match seekGet b.name tx with
    | none => .error .nilPointer
    | some pairs => .ok pairs

/-- bolt's `DB.Update`: the function runs on a writable transaction, which is
committed when it returns nil and rolled back when it returns an error or
panics; a nil database panics. -/
def DB.Update (db : Option BoltDB)
    (fn : BoltDB → Except Panic (Option BoltError × BoltDB)) :
    Except Panic (Option BoltError × Option BoltDB) :=
  match db with
  | none => .error .nilPointer
  | some pages =>
    match fn pages with
    | .error p => .error p
    | .ok (some err, _) => .ok (some err, some pages)
    | .ok (none, tx) => .ok (none, some tx)

/-- bolt's `DB.View`: the function runs on a read-only transaction; what it
hands out besides its error is returned with it. -/
def DB.View {ρ : Type} (db : Option BoltDB)
    (fn : BoltDB → Except Panic (Option BoltError × ρ)) :
    Except Panic (Option BoltError × ρ) :=
  match db with
  | none => .error .nilPointer
  | some pages => fn pages

/-! ## The stem store -/

structure StemDB where
  Path : GoString
  BucketName : GoString
  db : Option BoltDB
  deriving DecidableEq

def NewStemDB (path bucket : GoString) : StemDB :=
  { Path := path, BucketName := bucket, db := none }

/-- `Open`: `bolt.Open` hands back the database held by the file at `Path`,
passed in as `file` (no buckets when the file is created by the call). -/
def StemDB.Open (s : StemDB) (file : BoltDB) : StemDB :=
  { s with db := some file }

def StemDB.InitializeDatabase (s : StemDB) : Except Panic (Option BoltError × StemDB) := do
  let (err, db) ← DB.Update s.db (fun tx =>
    .ok (Tx.CreateBucketIfNotExists tx (goStr "stems")))
  pure (err, { s with db := db })

def StemDB.GetDestination (s : StemDB) (stem : GoString) : Except Panic (Bool × GoString) := do
  let (_, found) ← DB.View s.db (fun tx => do
    let bucket := Tx.Bucket tx s.BucketName
    let destBytes ← Bucket.Get tx bucket stem
    match destBytes with
    | none => pure (none, (false, []))
    | some destBytes => pure (none, (true, destBytes)))
  pure found

def StemDB.SetDestination (s : StemDB) (stem dest : GoString) :
    Except Panic (Option BoltError × StemDB) := do
  let (err, db) ← DB.Update s.db (fun tx =>
    let bucket := Tx.Bucket tx s.BucketName
    Bucket.Put tx bucket stem dest)
  pure (err, { s with db := db })

structure StemDest where
  Stem : GoString
  Dest : GoString
  deriving DecidableEq

/-- A Go channel as its consumer sees it: the values sent so far, in order, and
whether it has been closed. -/
structure Chan where
  sent : List StemDest
  closed : Bool
  deriving DecidableEq

/-- Go's `make(chan StemDest)`. -/
def Chan.make : Chan := { sent := [], closed := false }

/-- A send `ch <- x`; sending on a closed channel panics. -/
def Chan.send (ch : Chan) (x : StemDest) : Except Panic Chan :=
  if ch.closed then .error .closedChannel else .ok { ch with sent := ch.sent ++ [x] }

/-- Go's `close(ch)`; closing a closed channel panics. -/
def Chan.close (ch : Chan) : Except Panic Chan :=
  if ch.closed then .error .closedChannel else .ok { ch with closed := true }

/-- The cursor loop of `GetStems`: one send per entry, in cursor order. -/
def sendStems : Pairs GoString → Chan → Except Panic Chan
  | [], ch => .ok ch
  | (k, v) :: rest, ch => do
    let ch ← ch.send { Stem := k, Dest := v }
    sendStems rest ch

def StemDB.GetStems (s : StemDB) (stemChannel : Chan) : Except Panic (Option BoltError × Chan) :=
  DB.View s.db (fun tx => do
    let bucket := Tx.Bucket tx s.BucketName
    let c ← Bucket.Cursor tx bucket
    let ch ← sendStems c stemChannel
    let ch ← ch.close
    pure (none, ch))

/-! ## path, net/url and net/http -/

/-- The elements of a path: the byte runs between its slashes. -/
def pathElements : GoString → List GoString
  | [] => [[]]
  | c :: s =>
    if c = 0x2F then [] :: pathElements s
    else
      match pathElements s with
      | e :: es => (c :: e) :: es
      | [] => [[c]]

/-- The pass of Go's `path.Clean` over the elements, the kept elements last
first: an empty element and `.` are dropped, `..` removes the element before it,
is dropped at the root of a rooted path, and is kept at the start of a path that
is not rooted. -/
def cleanElements (rooted : Bool) : List GoString → List GoString → List GoString
  | kept, [] => kept
  | kept, e :: es =>
    if e = [] ∨ e = [0x2E] then cleanElements rooted kept es
    else if e = [0x2E, 0x2E] then
      match kept with
      | [] => if rooted then cleanElements rooted [] es
              else cleanElements rooted [[0x2E, 0x2E]] es
      | top :: below =>
        if top = [0x2E, 0x2E] then cleanElements rooted (e :: kept) es
        else cleanElements rooted below es
    else cleanElements rooted (e :: kept) es

/-- The elements joined by slashes. -/
def joinElements : List GoString → GoString
  | [] => []
  | [e] => e
  | e :: es => e ++ 0x2F :: joinElements es

/-- Go's `path.Clean`: the shortest path naming the same place, `.` for the
empty one. -/
def pathClean (path : GoString) : GoString :=
  if path = [] then [0x2E]
  else
    let rooted := decide (path.head? = some 0x2F)
    let out := joinElements (cleanElements rooted [] (pathElements path)).reverse
    if rooted then 0x2F :: out
    else if out = [] then [0x2E] else out

/-- The directory of Go's `path.Split`: the path up to and with its last slash. -/
def pathSplitDir : GoString → GoString
  | [] => []
  | c :: s =>
    if s.contains 0x2F then c :: pathSplitDir s
    else if c = 0x2F then [c] else []

/-- `net/http`'s `cleanPath`: the canonical path the mux redirects to. -/
def cleanPath (p : GoString) : GoString :=
  if p = [] then [0x2F]
  else
    let p := if p.head? ≠ some 0x2F then 0x2F :: p else p
    let np := pathClean p
    if p.getLast? = some 0x2F ∧ np ≠ [0x2F] then np ++ [0x2F] else np

/-- Go's `strings.Cut` at the first byte `sep`: what is before it and what is
after it (all of `s` and nothing when `sep` is not in `s`). -/
def cutAt (sep : Nat) : GoString → GoString × GoString
  | [] => ([], [])
  | c :: s => if c = sep then ([], s) else ((c :: (cutAt sep s).1), (cutAt sep s).2)

/-- The loop of `net/url`'s `getScheme` at index `i`, with the bytes from `i` on:
the scheme and the rest, none for the error of a leading colon. -/
def getSchemeLoop (rawURL : GoString) : Nat → GoString → Option (GoString × GoString)
  | _, [] => some ([], rawURL)
  | i, c :: s =>
    if (0x61 ≤ c ∧ c ≤ 0x7A) ∨ (0x41 ≤ c ∧ c ≤ 0x5A) then getSchemeLoop rawURL (i + 1) s
    else if (0x30 ≤ c ∧ c ≤ 0x39) ∨ c = 0x2B ∨ c = 0x2D ∨ c = 0x2E then
      if i = 0 then some ([], rawURL) else getSchemeLoop rawURL (i + 1) s
    else if c = 0x3A then
      if i = 0 then none else some (rawURL.take i, rawURL.drop (i + 1))
    else some ([], rawURL)

/-- `net/url`'s `getScheme`: the scheme before the first colon and what follows
the colon, or no scheme and all of `rawURL`; none for the error of a leading
colon. -/
def getScheme (rawURL : GoString) : Option (GoString × GoString) :=
  getSchemeLoop rawURL 0 rawURL

/-- `net/url`'s `ishex`. -/
def ishex (c : Nat) : Bool :=
  decide ((0x30 ≤ c ∧ c ≤ 0x39) ∨ (0x61 ≤ c ∧ c ≤ 0x66) ∨ (0x41 ≤ c ∧ c ≤ 0x46))

/-- Whether `net/url`'s `unescape` takes `s` as a path, a fragment or user
information: every `%` is followed by two hexadecimal digits. -/
def unescapeOk : GoString → Bool
  | [] => true
  | c :: s =>
    if c = 0x25 then
      match s with
      | h1 :: h2 :: rest => ishex h1 && ishex h2 && unescapeOk rest
      | _ => false
    else unescapeOk s

/-- `net/url`'s `validUserinfo`. -/
def validUserinfo (s : GoString) : Bool :=
  s.all (fun r =>
    decide ((0x41 ≤ r ∧ r ≤ 0x5A) ∨ (0x61 ≤ r ∧ r ≤ 0x7A) ∨ (0x30 ≤ r ∧ r ≤ 0x39)) ||
      (goStr "-._:~!$&'()*+,;=%@").contains r)

/-- `net/url`'s `stringContainsCTLByte`. -/
def stringContainsCTLByte (s : GoString) : Bool :=
  s.any (fun b => decide (b < 0x20 ∨ b = 0x7F))

/-- What is after the last `@` of an authority, and the user information before
it when there is an `@`. -/
def cutLastAt : GoString → Option GoString × GoString
  | [] => (none, [])
  | c :: s =>
    match cutLastAt s with
    | (some user, host) => (some (c :: user), host)
    | (none, host) => if c = 0x40 then (some [], host) else (none, c :: host)

/-- Whether `net/url`'s `parseAuthority` returns no error and an empty host: the
host part is empty (a host part that is not empty gives an error or a host that
is not empty), and the user information before `@`, if there is one, is valid. -/
def authorityHostless (authority : GoString) : Bool :=
  match cutLastAt authority with
  | (_, _ :: _) => false
  | (none, []) => true
  | (some userinfo, []) =>
    validUserinfo userinfo &&
      (if userinfo.contains 0x3A then
        unescapeOk (cutAt 0x3A userinfo).1 && unescapeOk (cutAt 0x3A userinfo).2
      else unescapeOk userinfo)

/-- Whether `url.Parse(rawURL)` returns no error and a URL whose `Scheme` and
`Host` are both empty, which is when `http.Redirect` takes the target as
relative to the request. -/
def parsesRelative (rawURL : GoString) : Bool :=
  let u := (cutAt 0x23 rawURL).1
  let frag := (cutAt 0x23 rawURL).2
  if stringContainsCTLByte u then false
  else if u = [0x2A] then unescapeOk frag
  else
    match getScheme u with
    | none => false
    | some (scheme, rest) =>
      if scheme ≠ [] then false
      else
        let rest := (cutAt 0x3F rest).1
        if rest.head? ≠ some 0x2F ∧ (cutAt 0x2F rest).1.contains 0x3A then false
        else if rest.take 2 = [0x2F, 0x2F] ∧ rest.take 3 ≠ [0x2F, 0x2F, 0x2F] then
          let authority := (cutAt 0x2F (rest.drop 2)).1
          let rest := (rest.drop 2).drop authority.length
          authorityHostless authority && unescapeOk rest && unescapeOk frag
        else unescapeOk rest && unescapeOk frag

/-- The lower-case hexadecimal digit of `n`. -/
def hexDigit (n : Nat) : Nat := if n < 10 then 0x30 + n else 0x61 + (n - 10)

/-- `net/http`'s `hexEscapeNonASCII`: every byte from 0x80 on becomes `%` and
its two hexadecimal digits. -/
def hexEscapeNonASCII : GoString → GoString
  | [] => []
  | b :: s =>
    if b ≥ 0x80 then 0x25 :: hexDigit (b / 16) :: hexDigit (b % 16) :: hexEscapeNonASCII s
    else b :: hexEscapeNonASCII s

/-- The value `http.Redirect(w, r, url, code)` sets in the `Location` header,
for a request with path `oldpath`. -/
def redirectLocation (oldpath url : GoString) : GoString :=
  let url :=
    if parsesRelative url then
      let oldpath := if oldpath = [] then [0x2F] else oldpath
      let url := if url = [] ∨ url.head? ≠ some 0x2F then pathSplitDir oldpath ++ url else url
      let query := if url.contains 0x3F then 0x3F :: (cutAt 0x3F url).2 else []
      let url := (cutAt 0x3F url).1
      let trailing := decide (url.getLast? = some 0x2F)
      let url := pathClean url
      let url := if trailing ∧ url.getLast? ≠ some 0x2F then url ++ [0x2F] else url
      url ++ query
    else url
  hexEscapeNonASCII url

/-- `net/textproto`'s `isASCIISpace`. -/
def isASCIISpace (b : Nat) : Bool :=
  b = 0x20 || b = 0x09 || b = 0x0A || b = 0x0D

/-- `net/textproto`'s `TrimString`: `s` without its leading and trailing ASCII
blanks. -/
def TrimString (s : GoString) : GoString :=
  ((s.dropWhile isASCIISpace).reverse.dropWhile isASCIISpace).reverse

/-- A header value as `Header.Write` sends it: every CR and LF replaced by a
blank, then `TrimString`. -/
def headerValue (v : GoString) : GoString :=
  TrimString (v.map (fun b => if b = 0x0A ∨ b = 0x0D then 0x20 else b))

/-- A header value that is sent as it is and that `hexEscapeNonASCII` leaves as
it is: no byte from 0x80 on, no CR or LF, and no blank at its start or end. -/
def sentAsIs (v : GoString) : Bool :=
  v.all (fun b => decide (b < 0x80 ∧ b ≠ 0x0A ∧ b ≠ 0x0D)) &&
    (match v.head? with
      | some b => !isASCIISpace b
      | none => true) &&
    (match v.getLast? with
      | some b => !isASCIISpace b
      | none => true)

/-- Whether `url.Parse` finds a scheme in `rawURL`: `getScheme`, on what is
before the fragment, gives a scheme that is not empty. -/
def hasScheme (rawURL : GoString) : Bool :=
  match getScheme (cutAt 0x23 rawURL).1 with
  | some (scheme, _) => decide (scheme ≠ [])
  | none => false

/-! ## The HTTP handlers -/

/-- What a handler reads of a request: the method, `URL.Path`, and what
`ioutil.ReadAll(r.Body)` returns (the bytes read, and whether it reports an
error). -/
structure Request where
  Method : GoString
  Path : GoString
  Body : GoString
  BodyErr : Bool
  deriving DecidableEq

/-- What a call writes to the response: `http.Redirect` the `Location` header,
as the client receives it, and the code (the HTML note it adds to the body of a
`GET` is left out),
`http.Error` its text as the body and the code, the mux's own
`RedirectHandler` a redirect to the URL of the request with the clean path, and
a bare `WriteHeader` the code alone. -/
inductive Reply where
  | Redirect (Location : GoString) (code : Nat)
  | Error (error : GoString) (code : Nat)
  | MuxRedirect (path : GoString) (code : Nat)
  | WriteHeader (code : Nat)
  deriving DecidableEq

/-- The status code the call writes. -/
def Reply.code : Reply → Nat
  | .Redirect _ code => code
  | .Error _ code => code
  | .MuxRedirect _ code => code
  | .WriteHeader code => code

/-- Go's `http.Redirect(w, r, url, code)`. -/
def http.Redirect (r : Request) (url : GoString) (code : Nat) : Reply :=
  .Redirect (headerValue (redirectLocation r.Path url)) code

def StatusCreated : Nat := 201

def StatusMovedPermanently : Nat := 301

def StatusNotFound : Nat := 404

def StatusNotAcceptable : Nat := 406

def StatusTeapot : Nat := 418

def StatusInternalServerError : Nat := 500

/-- Go's `http.StatusText` at the codes this program uses. -/
def StatusText (code : Nat) : GoString :=
  if code = 201 then goStr "Created"
  else if code = 302 then goStr "Found"
  else if code = 406 then goStr "Not Acceptable"
  else if code = 418 then goStr "I'm a teapot"
  else if code = 500 then goStr "Internal Server Error"
  else []

/-- One handled request: the calls made on the response writer in order, the
panic that ended the handler if one did, and the store afterwards. -/
structure Served where
  w : List Reply
  panicked : Option Panic
  stemdb : StemDB
  deriving DecidableEq

/-- The status line the client receives: that of the first call on the response
writer (a later `WriteHeader` is dropped by `net/http`), none when the handler
panicked. -/
def Served.status (r : Served) : Option Nat :=
  match r.panicked with
  | some _ => none
  | none => r.w.head?.map Reply.code

/-- The handler `main` registers on `redirectorMux` at `/`. -/
def redirectorHandler (stemdb : StemDB) (req : Request) : Served :=
  match sliceFrom req.Path 1 with
  | .error p => { w := [], panicked := some p, stemdb := stemdb }
  | .ok stem =>
    match stemdb.GetDestination stem with
    | .error p => { w := [], panicked := some p, stemdb := stemdb }
    | .ok (found, dest) =>
      if found then
        { w := [http.Redirect req dest 302], panicked := none, stemdb := stemdb }
      else
        { w := [.Error (StatusText StatusTeapot) StatusTeapot], panicked := none,
          stemdb := stemdb }

/-- The `http.ServeMux` `redirectorMux`, which holds the handler under the
pattern `/`, behind the server, for a request whose path is sent without
percent-encoded slashes or dots: a request for `*` is answered 200 by the server
when it is an `OPTIONS` request and 400 by the mux otherwise, a request other
than `CONNECT` whose path is not its clean path is answered by the mux with a
redirect to the clean path, a path that begins with a slash goes to the
handler, and any other path gets `http.NotFound`. -/
def redirectorMux (stemdb : StemDB) (req : Request) : Served :=
  if req.Path = [0x2A] then
    { w := [.WriteHeader (if req.Method = goStr "OPTIONS" then 200 else 400)],
      panicked := none, stemdb := stemdb }
  else if req.Method ≠ goStr "CONNECT" ∧ cleanPath req.Path ≠ req.Path then
    { w := [.MuxRedirect (cleanPath req.Path) StatusMovedPermanently], panicked := none,
      stemdb := stemdb }
  else if req.Path.head? = some 0x2F then redirectorHandler stemdb req
  else
    { w := [.Error (goStr "404 page not found") StatusNotFound], panicked := none,
      stemdb := stemdb }

/-- The handler `main` registers with `adminMux.Put` at `/stems/*`; `star` is
`c.URLParams["*"]`. The `Content-type` header it adds first and the log line of
the read error are left out. -/
def adminPutHandler (stemdb : StemDB) (star : GoString) (r : Request) : Served :=
  let w := if r.BodyErr then [Reply.Error (goStr "Internal Error") StatusInternalServerError]
           else []
  let dest := TrimSpace r.Body
  if dest.length < 4 then
    { w := w ++ [.Error (goStr "body must contain destination URL") StatusNotAcceptable],
      panicked := none, stemdb := stemdb }
  else
    match sliceFrom star 1 with
    | .error p => { w := w, panicked := some p, stemdb := stemdb }
    | .ok stem =>
      match stemdb.SetDestination stem dest with
      | .error p => { w := w, panicked := some p, stemdb := stemdb }
      | .ok (_, stemdb) =>
        { w := w ++ [.Error (StatusText StatusCreated) StatusCreated], panicked := none,
          stemdb := stemdb }

/-- The match of goji's string pattern `/stems/*`: a path that begins with
`/stems/` matches, and `URLParams["*"]` is the path from that last slash on. -/
def matchStemsStar (path : GoString) : Option GoString :=
  let lit := goStr "/stems/"
  if path.take lit.length = lit then some (path.drop (lit.length - 1)) else none

/-- The route `adminMux.Put("/stems/*", ...)`: the handler runs on a `PUT`
request whose path matches (none otherwise: this handler is not called). -/
def adminPut (stemdb : StemDB) (r : Request) : Option Served :=
  if r.Method = goStr "PUT" then
    match matchStemsStar r.Path with
    | none => none
    | some star => some (adminPutHandler stemdb star r)
  else none

/-- The store `main` serves from: `NewStemDB(path, "stems")`, `Open` on the
database file, then `InitializeDatabase` (whose error `main` only logs). -/
def mainStore (path : GoString) (file : BoltDB) : StemDB :=
  match ((NewStemDB path (goStr "stems")).Open file).InitializeDatabase with
  | .error _ => (NewStemDB path (goStr "stems")).Open file
  | .ok (_, s) => s

/-! ## Histories -/

/-- The store after the call `SetDestination(stem, dest)`, whatever it returns
(a panic leaves the store as it was). -/
def StemDB.afterSet (s : StemDB) (stem dest : GoString) : StemDB :=
  match s.SetDestination stem dest with
  | .error _ => s
  | .ok (_, s') => s'

/-- The store after a sequence of `SetDestination` calls, first call first. -/
def StemDB.afterSets (s : StemDB) (calls : List (GoString × GoString)) : StemDB :=
  calls.foldl (fun s c => s.afterSet c.1 c.2) s

/-- The store after `n` calls of `InitializeDatabase`. -/
def StemDB.afterInits (s : StemDB) : Nat → StemDB
  | 0 => s
  | n + 1 =>
    match (s.afterInits n).InitializeDatabase with
    | .error _ => s.afterInits n
    | .ok (_, s') => s'

/-- Whether bolt's `Put` takes the pair: a key of 1 to `MaxKeySize` bytes and a
value of at most `MaxValueSize` bytes. -/
def putTaken (c : GoString × GoString) : Bool :=
  decide (1 ≤ c.1.length) && decide (c.1.length ≤ MaxKeySize) &&
    decide (c.2.length ≤ MaxValueSize)

/-- The destination of the last call in `calls` made with `stem`. -/
def lastDest (calls : List (GoString × GoString)) (stem : GoString) : Option GoString :=
  (calls.reverse.find? (fun c => decide (c.1 = stem))).map Prod.snd

/-- Strictly ascending keys, in the byte order of `bytes.Compare`. -/
def Ascending {α : Type} (l : Pairs α) : Prop :=
  l.Pairwise (fun p q => bytesCompare p.1 q.1 = .lt)

/-- The entries of the collection named by `BucketName`, in cursor order, when
the store is open and has that collection (the store is then initialized). -/
def StemDB.pairs (s : StemDB) : Option (Pairs GoString) :=
  match s.db with
  | none => none
  | some pages => seekGet s.BucketName pages


/-! ## The byte order -/

theorem bytesCompare_self (a : GoString) : bytesCompare a a = .eq := by
  induction a with
  | nil => rfl
  | cons x xs ih => simp [bytesCompare, ih]

theorem bytesCompare_eq_iff (a b : GoString) : bytesCompare a b = .eq ↔ a = b := by
  constructor
  · intro h
    induction a generalizing b with
    | nil => cases b <;> simp_all [bytesCompare]
    | cons x xs ih =>
      cases b with
      | nil => simp [bytesCompare] at h
      | cons y ys =>
        simp only [bytesCompare] at h
        split at h
        · cases h
        · split at h
          · cases h
          · have hxy : x = y := by omega
            rw [hxy, ih ys h]
  · rintro rfl
    exact bytesCompare_self a

theorem bytesCompare_lt_trans (a b c : GoString)
    (hab : bytesCompare a b = .lt) (hbc : bytesCompare b c = .lt) :
    bytesCompare a c = .lt := by
  induction a generalizing b c with
  | nil =>
    cases b with
    | nil => simp [bytesCompare] at hab
    | cons y ys =>
      cases c with
      | nil => simp [bytesCompare] at hbc
      | cons z zs => rfl
  | cons x xs ih =>
    cases b with
    | nil => simp [bytesCompare] at hab
    | cons y ys =>
      cases c with
      | nil => simp [bytesCompare] at hbc
      | cons z zs =>
        simp only [bytesCompare] at hab hbc ⊢
        by_cases hxy : x < y
        · by_cases hyz : y < z
          · have : x < z := by omega
            simp [this]
          · simp only [hyz, if_false] at hbc
            by_cases hzy : z < y
            · simp [hzy] at hbc
            · have : x < z := by omega
              simp [this]
        · simp only [hxy, if_false] at hab
          by_cases hyx : y < x
          · simp [hyx] at hab
          · simp only [hyx, if_false] at hab
            have hxy' : x = y := by omega
            subst hxy'
            by_cases hxz : x < z
            · simp [hxz]
            · simp only [hxz, if_false] at hbc ⊢
              by_cases hzx : z < x
              · simp [hzx] at hbc
              · simp only [hzx, if_false] at hbc ⊢
                exact ih ys zs hab hbc

theorem bytesCompare_lt_irrefl (a : GoString) : bytesCompare a a ≠ .lt := by
  rw [bytesCompare_self]; decide

/-! ## Seeking in a bucket -/

theorem seekGet_seekPut_self {α : Type} (k : GoString) (v : α) (l : Pairs α) :
    seekGet k (seekPut k v l) = some v := by
  induction l with
  | nil => simp [seekPut, seekGet, bytesCompare_self]
  | cons p rest ih =>
    obtain ⟨k0, v0⟩ := p
    simp only [seekPut]
    cases h : bytesCompare k k0 with
    | lt => simp [seekGet, bytesCompare_self]
    | eq => simp [seekGet, bytesCompare_self]
    | gt => simp [seekGet, h, ih]

theorem seekGet_seekPut_ne {α : Type} (k k' : GoString) (v : α) (l : Pairs α)
    (hne : k' ≠ k) : seekGet k' (seekPut k v l) = seekGet k' l := by
  induction l with
  | nil =>
    simp only [seekPut, seekGet]
    cases h : bytesCompare k' k with
    | lt => rfl
    | eq => exact absurd ((bytesCompare_eq_iff k' k).1 h) hne
    | gt => rfl
  | cons p rest ih =>
    obtain ⟨k0, v0⟩ := p
    simp only [seekPut]
    cases h : bytesCompare k k0 with
    | lt =>
      simp only [seekGet]
      cases h' : bytesCompare k' k with
      | lt => simp [bytesCompare_lt_trans k' k k0 h' h]
      | eq => exact absurd ((bytesCompare_eq_iff k' k).1 h') hne
      | gt => rfl
    | eq =>
      have hk : k = k0 := (bytesCompare_eq_iff k k0).1 h
      subst hk
      simp only [seekGet]
      cases h' : bytesCompare k' k with
      | lt => rfl
      | eq => exact absurd ((bytesCompare_eq_iff k' k).1 h') hne
      | gt => rfl
    | gt =>
      simp only [seekGet]
      cases h' : bytesCompare k' k0 with
      | lt => rfl
      | eq => rfl
      | gt => exact ih

theorem seekPut_seekPut {α : Type} (k : GoString) (v w : α) (l : Pairs α) :
    seekPut k w (seekPut k v l) = seekPut k w l := by
  induction l with
  | nil => simp [seekPut, bytesCompare_self]
  | cons p rest ih =>
    obtain ⟨k0, v0⟩ := p
    simp only [seekPut]
    cases h : bytesCompare k k0 with
    | lt => simp [seekPut, bytesCompare_self]
    | eq => simp [seekPut, bytesCompare_self]
    | gt => simp [seekPut, h, ih]


theorem bytesCompare_swap (a b : GoString) (h : bytesCompare a b = .lt) :
    bytesCompare b a = .gt := by
  induction a generalizing b with
  | nil =>
    cases b with
    | nil => simp [bytesCompare] at h
    | cons y ys => rfl
  | cons x xs ih =>
    cases b with
    | nil => simp [bytesCompare] at h
    | cons y ys =>
      simp only [bytesCompare] at h ⊢
      by_cases hxy : x < y
      · have : ¬ y < x := by omega
        simp [this, hxy]
      · simp only [hxy, if_false] at h
        by_cases hyx : y < x
        · simp [hyx] at h
        · simp only [hyx, hxy, if_false] at h ⊢
          exact ih ys h

theorem bytesCompare_swap_gt (a b : GoString) (h : bytesCompare a b = .gt) :
    bytesCompare b a = .lt := by
  induction a generalizing b with
  | nil => cases b <;> simp [bytesCompare] at h
  | cons x xs ih =>
    cases b with
    | nil => rfl
    | cons y ys =>
      simp only [bytesCompare] at h ⊢
      by_cases hxy : x < y
      · simp [hxy] at h
      · simp only [hxy, if_false] at h
        by_cases hyx : y < x
        · simp [hyx]
        · simp only [hyx, hxy, if_false] at h ⊢
          exact ih ys h

theorem mem_seekPut {α : Type} (k : GoString) (v : α) (l : Pairs α) (q : GoString × α)
    (hq : q ∈ seekPut k v l) : q = (k, v) ∨ q ∈ l := by
  induction l with
  | nil => simpa [seekPut] using hq
  | cons p rest ih =>
    obtain ⟨k0, v0⟩ := p
    simp only [seekPut] at hq
    cases h : bytesCompare k k0 with
    | lt =>
      rw [h] at hq
      simpa using hq
    | eq =>
      rw [h] at hq
      rcases List.mem_cons.1 hq with h1 | h1
      · exact Or.inl h1
      · exact Or.inr (List.mem_cons_of_mem _ h1)
    | gt =>
      rw [h] at hq
      rcases List.mem_cons.1 hq with h1 | h1
      · exact Or.inr (by rw [h1]; exact List.mem_cons_self _ _)
      · rcases ih h1 with h2 | h2
        · exact Or.inl h2
        · exact Or.inr (List.mem_cons_of_mem _ h2)

theorem Ascending_seekPut {α : Type} (k : GoString) (v : α) (l : Pairs α)
    (hl : Ascending l) : Ascending (seekPut k v l) := by
  induction l with
  | nil => simp [seekPut, Ascending]
  | cons p rest ih =>
    obtain ⟨k0, v0⟩ := p
    unfold Ascending at hl ih ⊢
    rw [List.pairwise_cons] at hl
    obtain ⟨hhead, htail⟩ := hl
    simp only [seekPut]
    cases h : bytesCompare k k0 with
    | lt =>
      refine List.Pairwise.cons ?_ (List.Pairwise.cons hhead htail)
      intro q hq
      rcases List.mem_cons.1 hq with h1 | h1
      · rw [h1]; exact h
      · exact bytesCompare_lt_trans k k0 q.1 h (hhead q h1)
    | eq =>
      have hk : k = k0 := (bytesCompare_eq_iff k k0).1 h
      subst hk
      exact List.Pairwise.cons hhead htail
    | gt =>
      refine List.Pairwise.cons ?_ (ih htail)
      intro q hq
      rcases mem_seekPut k v rest q hq with h1 | h1
      · rw [h1]; exact bytesCompare_swap_gt k k0 h
      · exact hhead q h1

theorem mem_of_seekGet {α : Type} (k : GoString) (v : α) (l : Pairs α)
    (h : seekGet k l = some v) : (k, v) ∈ l := by
  induction l with
  | nil => simp [seekGet] at h
  | cons p rest ih =>
    obtain ⟨k0, v0⟩ := p
    simp only [seekGet] at h
    cases hc : bytesCompare k k0 with
    | lt => rw [hc] at h; cases h
    | eq =>
      rw [hc] at h
      have hk : k = k0 := (bytesCompare_eq_iff k k0).1 hc
      cases h
      rw [hk]
      exact List.mem_cons_self _ _
    | gt =>
      rw [hc] at h
      exact List.mem_cons_of_mem _ (ih h)

theorem seekGet_of_mem {α : Type} (k : GoString) (v : α) (l : Pairs α)
    (hl : Ascending l) (h : (k, v) ∈ l) : seekGet k l = some v := by
  induction l with
  | nil => cases h
  | cons p rest ih =>
    obtain ⟨k0, v0⟩ := p
    unfold Ascending at hl ih
    rw [List.pairwise_cons] at hl
    obtain ⟨hhead, htail⟩ := hl
    rcases List.mem_cons.1 h with h1 | h1
    · cases h1
      simp [seekGet, bytesCompare_self]
    · have hlt := hhead (k, v) h1
      simp only [seekGet, bytesCompare_swap k0 k hlt]
      exact ih htail h1

theorem DecodeRuneInString_width (b : Nat) (rest : GoString) :
    1 ≤ (DecodeRuneInString (b :: rest)).2 := by
  unfold DecodeRuneInString
  simp only
  repeat' split
  all_goals simp

theorem runeCountLoop_le (fuel : Nat) (s : GoString) : runeCountLoop fuel s ≤ s.length := by
  induction fuel generalizing s with
  | zero => simp [runeCountLoop]
  | succ n ih =>
    cases s with
    | nil => simp [runeCountLoop]
    | cons b rest =>
      simp only [runeCountLoop]
      have hw := DecodeRuneInString_width b rest
      have := ih (List.drop (DecodeRuneInString (b :: rest)).2 (b :: rest))
      simp only [List.length_drop, List.length_cons] at this ⊢
      omega

theorem RuneCountInString_le (s : GoString) : RuneCountInString s ≤ s.length :=
  runeCountLoop_le s.length s


/-! ## The loops of unicode/utf8 and strings end within their fuel -/

theorem runeCountLoop_fuel (fuel1 fuel2 : Nat) (s : GoString)
    (h1 : s.length ≤ fuel1) (h2 : s.length ≤ fuel2) :
    runeCountLoop fuel1 s = runeCountLoop fuel2 s := by
  induction fuel1 generalizing fuel2 s with
  | zero =>
    have hs : s = [] := List.length_eq_zero.1 (by omega)
    subst hs
    cases fuel2 <;> rfl
  | succ n ih =>
    cases s with
    | nil => cases fuel2 <;> rfl
    | cons b rest =>
      cases fuel2 with
      | zero => simp at h2
      | succ m =>
        simp only [runeCountLoop]
        have hw := DecodeRuneInString_width b rest
        rw [ih m]
        · simp only [List.length_drop, List.length_cons] at h1 ⊢
          omega
        · simp only [List.length_drop, List.length_cons] at h2 ⊢
          omega

theorem indexFuncLoop_fuel (s : GoString) (f : Nat → Bool) (truth : Bool)
    (fuel1 fuel2 start : Nat) (h1 : s.length < start + fuel1) (h2 : s.length < start + fuel2) :
    indexFuncLoop s f truth fuel1 start = indexFuncLoop s f truth fuel2 start := by
  induction fuel1 generalizing fuel2 start with
  | zero =>
    cases fuel2 with
    | zero => rfl
    | succ m =>
      have : ¬ start < s.length := by omega
      simp only [indexFuncLoop, this, if_false]
  | succ n ih =>
    cases fuel2 with
    | zero =>
      have : ¬ start < s.length := by omega
      simp only [indexFuncLoop, this, if_false]
    | succ m =>
      simp only [indexFuncLoop]
      by_cases hlt : start < s.length
      · simp only [hlt, if_true]
        have hw : 1 ≤ (if s.getD start 0 ≥ RuneSelf then DecodeRuneInString (s.drop start)
            else (s.getD start 0, 1)).2 := by
          split
          · cases hd : s.drop start with
            | nil =>
              have := congrArg List.length hd
              simp only [List.length_drop, List.length_nil] at this
              omega
            | cons b rest => exact DecodeRuneInString_width b rest
          · exact Nat.le_refl 1
        generalize (if s.getD start 0 ≥ RuneSelf then DecodeRuneInString (s.drop start)
            else (s.getD start 0, 1)) = rw at hw ⊢
        by_cases hf : f rw.1 = truth
        · simp only [hf, if_true]
        · simp only [hf, if_false]
          apply ih <;> omega
      · simp only [hlt, if_false]

theorem scanBack_lt (s : GoString) (lim k : Nat) : scanBack s lim k < (k : Int) := by
  induction k with
  | zero => simp [scanBack]
  | succ n ih =>
    simp only [scanBack]
    split
    · omega
    · split
      · omega
      · omega

theorem DecodeLastRuneInString_width (s : GoString) (h : s ≠ []) :
    1 ≤ (DecodeLastRuneInString s).2 := by
  have hn : s.length ≠ 0 := fun h0 => h (List.length_eq_zero.1 h0)
  unfold DecodeLastRuneInString
  simp only [hn, if_false]
  split
  · exact Nat.le_refl 1
  · have hlt := scanBack_lt s (s.length - 4) (s.length - 1)
    split
    · exact Nat.le_refl 1
    · rename_i hne
      simp only [ne_eq, not_not] at hne
      omega

theorem lastIndexFuncLoop_fuel (s : GoString) (f : Nat → Bool) (truth : Bool)
    (fuel1 fuel2 i : Nat) (hi : i ≤ s.length) (h1 : i < fuel1) (h2 : i < fuel2) :
    lastIndexFuncLoop s f truth fuel1 i = lastIndexFuncLoop s f truth fuel2 i := by
  induction fuel1 generalizing fuel2 i with
  | zero => omega
  | succ n ih =>
    cases fuel2 with
    | zero => omega
    | succ m =>
      simp only [lastIndexFuncLoop]
      by_cases hpos : 0 < i
      · simp only [hpos, if_true]
        have hne : s.take i ≠ [] := by
          intro h0
          have := congrArg List.length h0
          simp only [List.length_take, List.length_nil] at this
          omega
        have hw := DecodeLastRuneInString_width (s.take i) hne
        generalize DecodeLastRuneInString (s.take i) = rs at hw ⊢
        by_cases hf : f rs.1 = truth
        · simp only [hf, if_true]
        · simp only [hf, if_false]
          apply ih <;> omega
      · simp only [hpos, if_false]

/-! ## The store's operations on an initialized store -/

theorem pairs_mk (path bucket : GoString) (pages : BoltDB) :
    (StemDB.mk path bucket (some pages)).pairs = seekGet bucket pages := rfl

theorem pairs_some (s : StemDB) (P : Pairs GoString) (h : s.pairs = some P) :
    ∃ pages, s.db = some pages ∧ seekGet s.BucketName pages = some P := by
  obtain ⟨path, bucket, db⟩ := s
  cases db with
  | none => simp [StemDB.pairs] at h
  | some pages => exact ⟨pages, rfl, h⟩

theorem GetDestination_of_pairs (s : StemDB) (P : Pairs GoString) (stem : GoString)
    (h : s.pairs = some P) :
    s.GetDestination stem = .ok (match seekGet stem P with
      | none => (false, [])
      | some destBytes => (true, destBytes)) := by
  obtain ⟨pages, hdb, hP⟩ := pairs_some s P h
  simp only [StemDB.GetDestination, DB.View, hdb, Tx.Bucket, hP, Bucket.Get]
  cases seekGet stem P <;> rfl

theorem GetDestination_of_no_pairs (s : StemDB) (stem : GoString) (h : s.pairs = none) :
    s.GetDestination stem = .error .nilPointer := by
  obtain ⟨path, bucket, db⟩ := s
  cases db with
  | none => rfl
  | some pages =>
    have hP : seekGet bucket pages = none := h
    simp only [StemDB.GetDestination, DB.View, Tx.Bucket, hP, Bucket.Get]
    rfl

theorem SetDestination_taken (path bucket : GoString) (pages : BoltDB) (P : Pairs GoString)
    (stem dest : GoString) (hP : seekGet bucket pages = some P)
    (hk : putTaken (stem, dest) = true) :
    (StemDB.mk path bucket (some pages)).SetDestination stem dest =
      .ok (none, StemDB.mk path bucket (some (seekPut bucket (seekPut stem dest P) pages))) := by
  simp only [putTaken, Bool.and_eq_true, decide_eq_true_eq] at hk
  obtain ⟨⟨h1, h2⟩, h3⟩ := hk
  have h0 : ¬ stem.length = 0 := by omega
  have h1' : ¬ stem.length > MaxKeySize := by omega
  have h3' : ¬ dest.length > MaxValueSize := by omega
  simp only [StemDB.SetDestination, DB.Update, Tx.Bucket, hP, Bucket.Put, h0, h1', h3']
  rfl

theorem SetDestination_refused (path bucket : GoString) (pages : BoltDB) (P : Pairs GoString)
    (stem dest : GoString) (hP : seekGet bucket pages = some P)
    (hk : putTaken (stem, dest) = false) :
    ∃ err, (StemDB.mk path bucket (some pages)).SetDestination stem dest =
      .ok (some err, StemDB.mk path bucket (some pages)) := by
  by_cases h0 : stem.length = 0
  · refine ⟨.ErrKeyRequired, ?_⟩
    simp only [StemDB.SetDestination, DB.Update, Tx.Bucket, hP, Bucket.Put, h0]
    rfl
  · by_cases h1 : stem.length > MaxKeySize
    · refine ⟨.ErrKeyTooLarge, ?_⟩
      simp only [StemDB.SetDestination, DB.Update, Tx.Bucket, hP, Bucket.Put, h0, h1]
      rfl
    · by_cases h2 : dest.length > MaxValueSize
      · refine ⟨.ErrValueTooLarge, ?_⟩
        simp only [StemDB.SetDestination, DB.Update, Tx.Bucket, hP, Bucket.Put, h0, h1, h2]
        rfl
      · exfalso
        have : putTaken (stem, dest) = true := by
          simp only [putTaken, Bool.and_eq_true, decide_eq_true_eq]
          omega
        rw [this] at hk
        cases hk

theorem SetDestination_long_stem (path bucket : GoString) (pages : BoltDB)
    (P : Pairs GoString) (stem dest : GoString) (hP : seekGet bucket pages = some P)
    (h : MaxKeySize < stem.length) :
    (StemDB.mk path bucket (some pages)).SetDestination stem dest =
      .ok (some .ErrKeyTooLarge, StemDB.mk path bucket (some pages)) := by
  have h0 : ¬ stem.length = 0 := by omega
  have h1 : stem.length > MaxKeySize := h
  simp only [StemDB.SetDestination, DB.Update, Tx.Bucket, hP, Bucket.Put, h0, h1]
  rfl

theorem SetDestination_long_dest (path bucket : GoString) (pages : BoltDB)
    (P : Pairs GoString) (stem dest : GoString) (hP : seekGet bucket pages = some P)
    (hs : 1 ≤ stem.length ∧ stem.length ≤ MaxKeySize) (h : MaxValueSize < dest.length) :
    (StemDB.mk path bucket (some pages)).SetDestination stem dest =
      .ok (some .ErrValueTooLarge, StemDB.mk path bucket (some pages)) := by
  have h0 : ¬ stem.length = 0 := by omega
  have h1 : ¬ stem.length > MaxKeySize := by omega
  have h2 : dest.length > MaxValueSize := h
  simp only [StemDB.SetDestination, DB.Update, Tx.Bucket, hP, Bucket.Put, h0, h1, h2]
  rfl

theorem SetDestination_of_no_pairs (s : StemDB) (stem dest : GoString) (h : s.pairs = none) :
    s.SetDestination stem dest = .error .nilPointer := by
  obtain ⟨path, bucket, db⟩ := s
  cases db with
  | none => rfl
  | some pages =>
    have hP : seekGet bucket pages = none := h
    simp only [StemDB.SetDestination, DB.Update, Tx.Bucket, hP, Bucket.Put]
    rfl

theorem afterSet_taken (path bucket : GoString) (pages : BoltDB) (P : Pairs GoString)
    (stem dest : GoString) (hP : seekGet bucket pages = some P)
    (hk : putTaken (stem, dest) = true) :
    (StemDB.mk path bucket (some pages)).afterSet stem dest =
      StemDB.mk path bucket (some (seekPut bucket (seekPut stem dest P) pages)) := by
  simp only [StemDB.afterSet, SetDestination_taken path bucket pages P stem dest hP hk]

theorem afterSet_refused (path bucket : GoString) (pages : BoltDB) (P : Pairs GoString)
    (stem dest : GoString) (hP : seekGet bucket pages = some P)
    (hk : putTaken (stem, dest) = false) :
    (StemDB.mk path bucket (some pages)).afterSet stem dest =
      StemDB.mk path bucket (some pages) := by
  obtain ⟨err, he⟩ := SetDestination_refused path bucket pages P stem dest hP hk
  simp only [StemDB.afterSet, he]

theorem afterSet_of_no_pairs (s : StemDB) (stem dest : GoString) (h : s.pairs = none) :
    s.afterSet stem dest = s := by
  simp only [StemDB.afterSet, SetDestination_of_no_pairs s stem dest h]

/-- One call of `SetDestination` as a step on the entries of the collection. -/
theorem afterSet_pairs (s : StemDB) (P : Pairs GoString) (stem dest : GoString)
    (h : s.pairs = some P) :
    (s.afterSet stem dest).pairs =
      some (if putTaken (stem, dest) = true then seekPut stem dest P else P) := by
  obtain ⟨path, bucket, db⟩ := s
  obtain ⟨pages, hdb, hP⟩ := pairs_some _ P h
  simp only at hdb hP
  subst hdb
  cases hk : putTaken (stem, dest) with
  | true =>
    rw [afterSet_taken path bucket pages P stem dest hP hk]
    simp [pairs_mk, seekGet_seekPut_self]
  | false =>
    rw [afterSet_refused path bucket pages P stem dest hP hk]
    simp [pairs_mk, hP]

theorem afterSets_pairs (s : StemDB) (P : Pairs GoString) (calls : List (GoString × GoString))
    (h : s.pairs = some P) :
    (s.afterSets calls).pairs =
      some (calls.foldl (fun Q c => if putTaken c = true then seekPut c.1 c.2 Q else Q) P) := by
  induction calls generalizing s P with
  | nil => simpa [StemDB.afterSets] using h
  | cons c rest ih =>
    have h1 := afterSet_pairs s P c.1 c.2 h
    have := ih (s.afterSet c.1 c.2) _ h1
    simpa [StemDB.afterSets] using this

theorem lastDest_append_one (calls : List (GoString × GoString)) (c : GoString × GoString)
    (stem : GoString) :
    lastDest (calls ++ [c]) stem = if c.1 = stem then some c.2 else lastDest calls stem := by
  unfold lastDest
  rw [List.reverse_append, List.reverse_singleton, List.singleton_append, List.find?_cons]
  by_cases h : c.1 = stem
  · simp [h]
  · simp [h]

/-- What a lookup finds after a sequence of calls: the destination of the last
call with that stem that bolt's `Put` took, or what was there before. -/
theorem seekGet_foldl (calls : List (GoString × GoString)) (P : Pairs GoString)
    (stem : GoString) :
    seekGet stem
        (calls.foldl (fun Q c => if putTaken c = true then seekPut c.1 c.2 Q else Q) P) =
      match lastDest (calls.filter (fun c => putTaken c)) stem with
      | some dest => some dest
      | none => seekGet stem P := by
  induction calls using List.reverseRecOn with
  | nil => simp [lastDest]
  | append_singleton calls c ih =>
    rw [List.foldl_append, List.filter_append]
    simp only [List.foldl_cons, List.foldl_nil]
    cases hk : putTaken c with
    | false =>
      simp only [Bool.false_eq_true, if_false]
      rw [ih]
      simp [List.filter_cons, hk]
    | true =>
      simp only [if_true]
      have hf : List.filter (fun c => putTaken c) [c] = [c] := by simp [List.filter_cons, hk]
      rw [hf, lastDest_append_one]
      by_cases hs : c.1 = stem
      · subst hs
        simp [seekGet_seekPut_self]
      · have hs' : stem ≠ c.1 := fun h => hs h.symm
        rw [seekGet_seekPut_ne c.1 stem c.2 _ hs', ih]
        simp [hs]

theorem Ascending_foldl (calls : List (GoString × GoString)) (P : Pairs GoString)
    (hP : Ascending P) :
    Ascending
      (calls.foldl (fun Q c => if putTaken c = true then seekPut c.1 c.2 Q else Q) P) := by
  induction calls generalizing P with
  | nil => simpa using hP
  | cons c rest ih =>
    simp only [List.foldl_cons]
    apply ih
    split
    · exact Ascending_seekPut c.1 c.2 P hP
    · exact hP

theorem sendStems_open (P : Pairs GoString) (ch : Chan) (h : ch.closed = false) :
    sendStems P ch =
      .ok { sent := ch.sent ++ P.map (fun p => { Stem := p.1, Dest := p.2 }), closed := false } := by
  induction P generalizing ch with
  | nil =>
    obtain ⟨sent, closed⟩ := ch
    simp only at h
    subst h
    simp [sendStems]
  | cons p rest ih =>
    obtain ⟨k, v⟩ := p
    obtain ⟨sent, closed⟩ := ch
    simp only at h
    subst h
    simp only [sendStems, Chan.send]
    have := ih { sent := sent ++ [{ Stem := k, Dest := v }], closed := false } rfl
    simpa [bind, Except.bind] using this

theorem GetStems_of_pairs (s : StemDB) (P : Pairs GoString) (h : s.pairs = some P) :
    s.GetStems Chan.make =
      .ok (none, { sent := P.map (fun p => { Stem := p.1, Dest := p.2 }), closed := true }) := by
  obtain ⟨pages, hdb, hP⟩ := pairs_some s P h
  simp only [StemDB.GetStems, DB.View, hdb, Tx.Bucket, hP, Bucket.Cursor]
  have hsend := sendStems_open P Chan.make rfl
  simp only [Chan.make, List.nil_append] at hsend
  simp [bind, Except.bind, hsend, Chan.close, Chan.make, pure, Except.pure]

theorem lastDest_none (calls : List (GoString × GoString)) (stem : GoString)
    (h : ∀ c ∈ calls, c.1 ≠ stem) : lastDest calls stem = none := by
  unfold lastDest
  rw [Option.map_eq_none', List.find?_eq_none]
  intro c hc
  simpa using h c (List.mem_reverse.1 hc)

theorem lastDest_single (stem dest : GoString) : lastDest [(stem, dest)] stem = some dest := by
  simp [lastDest]

theorem afterSets_one (s : StemDB) (stem dest : GoString) :
    s.afterSets [(stem, dest)] = s.afterSet stem dest := rfl

theorem mainStore_fresh (path : GoString) :
    mainStore path [] = StemDB.mk path (goStr "stems") (some [(goStr "stems", [])]) := rfl

theorem putTaken_of_long_stem (stem dest : GoString) (h : MaxKeySize < stem.length) :
    putTaken (stem, dest) = false := by
  have h' : ¬ stem.length ≤ MaxKeySize := by omega
  simp only [putTaken, h', decide_False, Bool.and_false, Bool.false_and]

theorem putTaken_of_long_dest (stem dest : GoString) (h : MaxValueSize < dest.length) :
    putTaken (stem, dest) = false := by
  have h' : ¬ dest.length ≤ MaxValueSize := by omega
  simp only [putTaken, h', decide_False, Bool.and_false]

theorem length_long_stem : MaxKeySize < (List.replicate 32769 97 : GoString).length := by
  rw [List.length_replicate]
  decide

theorem length_long_dest : MaxValueSize < (List.replicate (2 ^ 32) 97 : GoString).length := by
  rw [List.length_replicate]
  decide

/-! ## C1: write, then read -/

theorem set_then_get (s : StemDB) (P : Pairs GoString) (stem dest : GoString)
    (hinit : s.pairs = some P)
    (hstem : 1 ≤ stem.length ∧ stem.length ≤ MaxKeySize)
    (hdest : dest.length ≤ MaxValueSize) :
    ∃ s', s.SetDestination stem dest = .ok (none, s') ∧
      s'.GetDestination stem = .ok (true, dest) := by
  obtain ⟨path, bucket, db⟩ := s
  obtain ⟨pages, hdb, hP⟩ := pairs_some _ P hinit
  simp only at hdb hP
  subst hdb
  have hk : putTaken (stem, dest) = true := by
    simp only [putTaken, Bool.and_eq_true, decide_eq_true_eq]
    exact ⟨hstem, hdest⟩
  refine ⟨_, SetDestination_taken path bucket pages P stem dest hP hk, ?_⟩
  have hpairs : (StemDB.mk path bucket
      (some (seekPut bucket (seekPut stem dest P) pages))).pairs =
      some (seekPut stem dest P) := by
    simp [pairs_mk, seekGet_seekPut_self]
  rw [GetDestination_of_pairs _ _ stem hpairs, seekGet_seekPut_self]

/-- C1, as amended. On an initialized store, for every stem of 1 to 32768 bytes
and every destination of at most 2^31 - 2 bytes whose trimmed length is at
least 4 characters, `SetDestination(stem, destination)` returns nil and
`GetDestination(stem)` then returns `(true, destination)`, the bytes as they
were written. -/
theorem C1_set_then_get (s : StemDB) (P : Pairs GoString) (stem dest : GoString)
    (hinit : s.pairs = some P)
    (hstem : 1 ≤ stem.length ∧ stem.length ≤ MaxKeySize)
    (hdest : dest.length ≤ MaxValueSize)
    (_htrim : 4 ≤ RuneCountInString (TrimSpace dest)) :
    ∃ s', s.SetDestination stem dest = .ok (none, s') ∧
      s'.GetDestination stem = .ok (true, dest) :=
  set_then_get s P stem dest hinit hstem hdest

/-- C1, the amended statement at the store `main` starts from an empty file,
stem `abc` and destination `https://example.com`. -/
theorem C1_set_then_get_witness :
    (mainStore (goStr "stems.db") []).pairs = some [] ∧
    (1 ≤ (goStr "abc").length ∧ (goStr "abc").length ≤ MaxKeySize) ∧
    (goStr "https://example.com").length ≤ MaxValueSize ∧
    4 ≤ RuneCountInString (TrimSpace (goStr "https://example.com")) ∧
    ∃ s', (mainStore (goStr "stems.db") []).SetDestination (goStr "abc")
        (goStr "https://example.com") = .ok (none, s') ∧
      s'.GetDestination (goStr "abc") = .ok (true, goStr "https://example.com") :=
  ⟨rfl, by decide, by decide, by decide,
    C1_set_then_get (mainStore (goStr "stems.db") []) [] (goStr "abc")
      (goStr "https://example.com") rfl (by decide) (by decide) (by decide)⟩

/-- C1 as stated fails at the empty stem (the stem of `PUT /stems/`): on the
initialized, empty store `SetDestination("", "http")` returns `ErrKeyRequired`
and `GetDestination("")` then returns `(false, "")`; and the same at a stem of
32769 bytes, which returns `ErrKeyTooLarge`. -/
theorem C1_counterexample :
    (mainStore (goStr "stems.db") []).pairs = some [] ∧
    4 ≤ RuneCountInString (TrimSpace (goStr "http")) ∧
    (mainStore (goStr "stems.db") []).SetDestination [] (goStr "http") =
      .ok (some .ErrKeyRequired, mainStore (goStr "stems.db") []) ∧
    (mainStore (goStr "stems.db") []).GetDestination [] = .ok (false, []) ∧
    (mainStore (goStr "stems.db") []).SetDestination (List.replicate 32769 97) (goStr "http") =
      .ok (some .ErrKeyTooLarge, mainStore (goStr "stems.db") []) ∧
    (mainStore (goStr "stems.db") []).GetDestination (List.replicate 32769 97) =
      .ok (false, []) := by
  refine ⟨rfl, by decide, rfl, rfl, ?_, ?_⟩
  · rw [mainStore_fresh]
    exact SetDestination_long_stem _ _ _ [] _ _ (by decide) length_long_stem
  · rw [GetDestination_of_pairs (mainStore (goStr "stems.db") []) [] _ rfl]
    simp only [seekGet]

/-! ## C2: the listing -/

/-- C2, as amended. For every sequence of `SetDestination` calls applied to an
initialized empty store, `GetStems` sends exactly the pairs whose stem was
written by a call that bolt took (a stem of 1 to 32768 bytes with a destination
of at most 2^31 - 2 bytes), each stem once and with the destination of the last
such call, in strictly ascending byte order of stem, and then closes the sink. -/
theorem C2_GetStems_lists_taken_writes (s : StemDB) (calls : List (GoString × GoString))
    (hempty : s.pairs = some []) :
    ∃ sent, (s.afterSets calls).GetStems Chan.make =
        .ok (none, { sent := sent, closed := true }) ∧
      sent.Pairwise (fun a b => bytesCompare a.Stem b.Stem = .lt) ∧
      (sent.map StemDest.Stem).Nodup ∧
      ∀ stem dest, ({ Stem := stem, Dest := dest } : StemDest) ∈ sent ↔
        lastDest (calls.filter (fun c => putTaken c)) stem = some dest := by
  have hpairs := afterSets_pairs s [] calls hempty
  have hasc := Ascending_foldl calls [] List.Pairwise.nil
  have hget := fun stem => seekGet_foldl calls [] stem
  generalize calls.foldl (fun Q c => if putTaken c = true then seekPut c.1 c.2 Q else Q)
    ([] : Pairs GoString) = Q at hpairs hasc hget
  refine ⟨_, GetStems_of_pairs _ Q hpairs, ?_, ?_, ?_⟩
  · rw [List.pairwise_map]
    exact hasc
  · rw [List.map_map]
    unfold List.Nodup
    rw [List.pairwise_map]
    refine List.Pairwise.imp ?_ hasc
    intro a b hab heq
    simp only [Function.comp] at heq
    rw [heq] at hab
    exact bytesCompare_lt_irrefl _ hab
  · intro stem dest
    have hmem : ({ Stem := stem, Dest := dest } : StemDest) ∈
        Q.map (fun p => ({ Stem := p.1, Dest := p.2 } : StemDest)) ↔ (stem, dest) ∈ Q := by
      rw [List.mem_map]
      constructor
      · rintro ⟨⟨k, v⟩, hkv, heq⟩
        cases heq
        exact hkv
      · intro h
        exact ⟨(stem, dest), h, rfl⟩
    rw [hmem]
    have hg := hget stem
    simp only [seekGet] at hg
    constructor
    · intro h
      have h1 := seekGet_of_mem stem dest Q hasc h
      rw [hg] at h1
      cases hl : lastDest (List.filter (fun c => putTaken c) calls) stem with
      | none => rw [hl] at h1; cases h1
      | some d => rw [hl] at h1; exact h1
    · intro h
      rw [h] at hg
      exact mem_of_seekGet stem dest Q hg

/-- C2, the amended statement at the store `main` starts from an empty file. -/
theorem C2_GetStems_lists_taken_writes_witness :
    (mainStore (goStr "stems.db") []).pairs = some [] ∧
    ∃ sent, ((mainStore (goStr "stems.db") []).afterSets
        [(goStr "b", goStr "https://one.example"), (goStr "a", goStr "https://a.example"),
          (goStr "b", goStr "https://two.example")]).GetStems Chan.make =
        .ok (none, { sent := sent, closed := true }) ∧
      sent.Pairwise (fun a b => bytesCompare a.Stem b.Stem = .lt) ∧
      (sent.map StemDest.Stem).Nodup ∧
      ∀ stem dest, ({ Stem := stem, Dest := dest } : StemDest) ∈ sent ↔
        lastDest ([(goStr "b", goStr "https://one.example"),
          (goStr "a", goStr "https://a.example"),
          (goStr "b", goStr "https://two.example")].filter (fun c => putTaken c)) stem =
          some dest :=
  ⟨rfl, C2_GetStems_lists_taken_writes (mainStore (goStr "stems.db") []) _ rfl⟩

/-- C2 as stated fails for a call that bolt refuses: after the one call
`SetDestination("", "https://example.com")` on the initialized empty store the
stem of the call is the empty one, yet `GetStems` sends nothing before it
closes the sink; the same after one call with a stem of 32769 bytes. -/
theorem C2_counterexample :
    (mainStore (goStr "stems.db") []).pairs = some [] ∧
    lastDest [(([] : GoString), goStr "https://example.com")] [] =
      some (goStr "https://example.com") ∧
    ((mainStore (goStr "stems.db") []).afterSets
        [([], goStr "https://example.com")]).GetStems Chan.make =
      .ok (none, { sent := [], closed := true }) ∧
    lastDest [((List.replicate 32769 97 : GoString), goStr "https://example.com")]
        (List.replicate 32769 97) = some (goStr "https://example.com") ∧
    ((mainStore (goStr "stems.db") []).afterSets
        [(List.replicate 32769 97, goStr "https://example.com")]).GetStems Chan.make =
      .ok (none, { sent := [], closed := true }) := by
  refine ⟨rfl, rfl, rfl, ?_, ?_⟩
  · exact lastDest_single _ _
  · have hset : (mainStore (goStr "stems.db") []).afterSets
        [(List.replicate 32769 97, goStr "https://example.com")] =
        mainStore (goStr "stems.db") [] := by
      rw [afterSets_one, mainStore_fresh]
      exact afterSet_refused _ _ _ [] _ _ (by decide)
        (putTaken_of_long_stem _ _ length_long_stem)
    rw [hset]
    rfl

/-! ## C3: overwriting -/

theorem afterSet_afterSet (s : StemDB) (stem d1 d2 : GoString)
    (h : putTaken (stem, d1) = true → putTaken (stem, d2) = true) :
    (s.afterSet stem d1).afterSet stem d2 = s.afterSet stem d2 := by
  cases hp : s.pairs with
  | none =>
    rw [afterSet_of_no_pairs s stem d1 hp]
  | some P =>
    obtain ⟨path, bucket, db⟩ := s
    obtain ⟨pages, hdb, hP⟩ := pairs_some _ P hp
    simp only at hdb hP
    subst hdb
    cases hk : putTaken (stem, d1) with
    | false =>
      rw [afterSet_refused path bucket pages P stem d1 hP hk]
    | true =>
      have hk2 := h hk
      rw [afterSet_taken path bucket pages P stem d1 hP hk,
        afterSet_taken path bucket _ (seekPut stem d1 P) stem d2
          (seekGet_seekPut_self bucket _ pages) hk2,
        afterSet_taken path bucket pages P stem d2 hP hk2,
        seekPut_seekPut, seekPut_seekPut]

/-- C3, as amended. For every store state, every stem and every destinations
d1 and d2 with d2 of at most 2^31 - 2 bytes, the store after
`SetDestination(s, d1)` then `SetDestination(s, d2)` equals the store after
`SetDestination(s, d2)` alone, and writing the same pair twice leaves the store
of writing it once; when the store is initialized, with its entries in
ascending key order as bolt keeps them, and the stem has 1 to 32768 bytes,
`GetDestination(s)` then returns d2 and `GetStems` sends d2 and nothing else
for s. -/
theorem C3_overwrite (s : StemDB) (stem d1 d2 : GoString)
    (hd2 : d2.length ≤ MaxValueSize) :
    (s.afterSet stem d1).afterSet stem d2 = s.afterSet stem d2 ∧
    (s.afterSet stem d1).afterSet stem d1 = s.afterSet stem d1 ∧
    (∀ P, s.pairs = some P → Ascending P → 1 ≤ stem.length → stem.length ≤ MaxKeySize →
      ((s.afterSet stem d1).afterSet stem d2).GetDestination stem = .ok (true, d2) ∧
      ∃ sent, ((s.afterSet stem d1).afterSet stem d2).GetStems Chan.make =
          .ok (none, { sent := sent, closed := true }) ∧
        ({ Stem := stem, Dest := d2 } : StemDest) ∈ sent ∧
        ∀ d, ({ Stem := stem, Dest := d } : StemDest) ∈ sent → d = d2) := by
  have hsame : (s.afterSet stem d1).afterSet stem d2 = s.afterSet stem d2 := by
    apply afterSet_afterSet
    intro hk
    simp only [putTaken, Bool.and_eq_true, decide_eq_true_eq] at hk ⊢
    exact ⟨hk.1, hd2⟩
  refine ⟨hsame, afterSet_afterSet s stem d1 d1 id, ?_⟩
  intro P hP hasc h1 h2
  rw [hsame]
  have hk : putTaken (stem, d2) = true := by
    simp only [putTaken, Bool.and_eq_true, decide_eq_true_eq]
    exact ⟨⟨h1, h2⟩, hd2⟩
  have hpairs : (s.afterSet stem d2).pairs = some (seekPut stem d2 P) := by
    rw [afterSet_pairs s P stem d2 hP, hk]
    rfl
  have hasc2 := Ascending_seekPut stem d2 P hasc
  refine ⟨?_, _, GetStems_of_pairs _ _ hpairs, ?_, ?_⟩
  · rw [GetDestination_of_pairs _ _ stem hpairs, seekGet_seekPut_self]
  · exact List.mem_map.2 ⟨(stem, d2),
      mem_of_seekGet stem d2 _ (seekGet_seekPut_self stem d2 P), rfl⟩
  · intro d hd
    obtain ⟨⟨k, v⟩, hkv, heq⟩ := List.mem_map.1 hd
    cases heq
    have := seekGet_of_mem k v _ hasc2 hkv
    rw [seekGet_seekPut_self] at this
    cases this
    rfl

/-- C3, the amended statement at the store `main` starts from an empty file:
stem `a`, first `https://one.example`, then `https://two.example`. -/
theorem C3_overwrite_witness :
    (goStr "https://two.example").length ≤ MaxValueSize ∧
    ((mainStore (goStr "stems.db") []).afterSet (goStr "a")
        (goStr "https://one.example")).afterSet (goStr "a") (goStr "https://two.example") =
      (mainStore (goStr "stems.db") []).afterSet (goStr "a") (goStr "https://two.example") ∧
    (((mainStore (goStr "stems.db") []).afterSet (goStr "a")
        (goStr "https://one.example")).afterSet (goStr "a")
        (goStr "https://two.example")).GetDestination (goStr "a") =
      .ok (true, goStr "https://two.example") :=
  ⟨by decide,
    (C3_overwrite (mainStore (goStr "stems.db") []) (goStr "a") (goStr "https://one.example")
      (goStr "https://two.example") (by decide)).1,
    ((C3_overwrite (mainStore (goStr "stems.db") []) (goStr "a") (goStr "https://one.example")
      (goStr "https://two.example") (by decide)).2.2 [] rfl List.Pairwise.nil
        (by decide) (by decide)).1⟩

/-- C3 as stated fails for a second destination that bolt refuses: with d1 =
`https://one.example` and d2 of 2^32 bytes on the initialized empty store, the
second call returns `ErrValueTooLarge`, so the store after both calls still maps
`a` to d1 (and `GetDestination("a")` returns d1), while the store after the call
with d2 alone maps nothing. -/
theorem C3_counterexample :
    (mainStore (goStr "stems.db") []).pairs = some [] ∧
    ((mainStore (goStr "stems.db") []).afterSet (goStr "a")
        (goStr "https://one.example")).SetDestination (goStr "a")
        (List.replicate (2 ^ 32) 97) =
      .ok (some .ErrValueTooLarge, (mainStore (goStr "stems.db") []).afterSet (goStr "a")
        (goStr "https://one.example")) ∧
    (((mainStore (goStr "stems.db") []).afterSet (goStr "a")
        (goStr "https://one.example")).afterSet (goStr "a")
        (List.replicate (2 ^ 32) 97)).pairs =
      some [(goStr "a", goStr "https://one.example")] ∧
    (((mainStore (goStr "stems.db") []).afterSet (goStr "a")
        (goStr "https://one.example")).afterSet (goStr "a")
        (List.replicate (2 ^ 32) 97)).GetDestination (goStr "a") =
      .ok (true, goStr "https://one.example") ∧
    ((mainStore (goStr "stems.db") []).afterSet (goStr "a")
        (List.replicate (2 ^ 32) 97)).pairs = some [] := by
  have hone : (mainStore (goStr "stems.db") []).afterSet (goStr "a")
      (goStr "https://one.example") =
      StemDB.mk (goStr "stems.db") (goStr "stems")
        (some [(goStr "stems", [(goStr "a", goStr "https://one.example")])]) := by
    decide
  have hbig1 : (StemDB.mk (goStr "stems.db") (goStr "stems")
        (some [(goStr "stems", [(goStr "a", goStr "https://one.example")])])).afterSet
        (goStr "a") (List.replicate (2 ^ 32) 97) =
      StemDB.mk (goStr "stems.db") (goStr "stems")
        (some [(goStr "stems", [(goStr "a", goStr "https://one.example")])]) :=
    afterSet_refused _ _ _ [(goStr "a", goStr "https://one.example")] _ _ (by decide)
      (putTaken_of_long_dest _ _ length_long_dest)
  have hbig0 : (mainStore (goStr "stems.db") []).afterSet (goStr "a")
      (List.replicate (2 ^ 32) 97) = mainStore (goStr "stems.db") [] := by
    rw [mainStore_fresh]
    exact afterSet_refused _ _ _ [] _ _ (by decide)
      (putTaken_of_long_dest _ _ length_long_dest)
  refine ⟨rfl, ?_, ?_, ?_, ?_⟩
  · rw [hone]
    exact SetDestination_long_dest _ _ _ [(goStr "a", goStr "https://one.example")] _ _
      (by decide) (by decide) length_long_dest
  · rw [hone, hbig1]
    rfl
  · rw [hone, hbig1]
    rfl
  · rw [hbig0]
    rfl

/-! ## C4: a stem never written -/

/-- C4, as amended. For every initialized store (it is open and the collection
named by `BucketName` exists) and every stem that is in no entry of the
collection and in none of the `SetDestination` calls made since,
`GetDestination(stem)` returns `(false, "")` without a panic or an error. -/
theorem C4_never_written_not_found (s : StemDB) (P : Pairs GoString)
    (calls : List (GoString × GoString)) (stem : GoString)
    (hinit : s.pairs = some P)
    (hP : ∀ p ∈ P, p.1 ≠ stem)
    (hcalls : ∀ c ∈ calls, c.1 ≠ stem) :
    (s.afterSets calls).GetDestination stem = .ok (false, []) := by
  have hnone : seekGet stem P = none := by
    cases h : seekGet stem P with
    | none => rfl
    | some v => exact absurd rfl (hP (stem, v) (mem_of_seekGet stem v P h))
  have hlast : lastDest (calls.filter (fun c => putTaken c)) stem = none :=
    lastDest_none _ stem (fun c hc => hcalls c (List.mem_of_mem_filter hc))
  rw [GetDestination_of_pairs _ _ stem (afterSets_pairs s P calls hinit), seekGet_foldl,
    hlast, hnone]

/-- C4, the amended statement at the store `main` starts from an empty file,
after writes to the stems `a` and `b`, read at the stem `abc`. -/
theorem C4_never_written_not_found_witness :
    (mainStore (goStr "stems.db") []).pairs = some [] ∧
    ((mainStore (goStr "stems.db") []).afterSets
        [(goStr "a", goStr "https://a.example"),
          (goStr "b", goStr "https://b.example")]).GetDestination (goStr "abc") =
      .ok (false, []) :=
  ⟨rfl, C4_never_written_not_found (mainStore (goStr "stems.db") []) []
    [(goStr "a", goStr "https://a.example"), (goStr "b", goStr "https://b.example")]
    (goStr "abc") rfl (by simp) (by decide)⟩

/-- C4 as stated fails on a store that is open but has no collection: after
`NewStemDB("stems.db", "stems")` and `Open` on a new file, with
`InitializeDatabase` not run, nothing was ever written and
`GetDestination("abc")` panics on the nil bucket. -/
theorem C4_counterexample :
    ((NewStemDB (goStr "stems.db") (goStr "stems")).Open []).db = some [] ∧
    ((NewStemDB (goStr "stems.db") (goStr "stems")).Open []).GetDestination (goStr "abc") =
      .error .nilPointer :=
  ⟨rfl, rfl⟩

/-! ## C5 and C6: InitializeDatabase -/

theorem InitializeDatabase_open (path bucket : GoString) (pages : BoltDB) :
    (StemDB.mk path bucket (some pages)).InitializeDatabase =
      .ok (none, StemDB.mk path bucket (some
        (match seekGet (goStr "stems") pages with
          | some _ => pages
          | none => seekPut (goStr "stems") [] pages))) := by
  have hname : ¬ (goStr "stems").length = 0 := by decide
  simp only [StemDB.InitializeDatabase, DB.Update, Tx.CreateBucketIfNotExists, hname, if_false]
  cases seekGet (goStr "stems") pages <;> rfl

/-- C5, on the code. `InitializeDatabase` creates the collection `stems`
whatever `BucketName` is: on the store built by `NewStemDB("stems.db", "links")`
and opened on a new file it returns nil, the file then holds the collection
`stems` and no collection `links`, and `GetDestination`, `SetDestination` and
`GetStems`, which look up `links`, panic on the nil bucket; and so for every
bucket name other than `stems`: after `InitializeDatabase` on a new file the
collection named by `BucketName` is not there. -/
theorem C5_InitializeDatabase_ignores_BucketName :
    (∃ s', ((NewStemDB (goStr "stems.db") (goStr "links")).Open []).InitializeDatabase =
        .ok (none, s') ∧
      s'.BucketName = goStr "links" ∧
      s'.db = some [(goStr "stems", [])] ∧
      s'.pairs = none ∧
      s'.GetDestination (goStr "abc") = .error .nilPointer ∧
      s'.SetDestination (goStr "abc") (goStr "https://example.com") = .error .nilPointer ∧
      s'.GetStems Chan.make = .error .nilPointer) ∧
    (∀ path bucket : GoString, bucket ≠ goStr "stems" →
      ∃ s', ((NewStemDB path bucket).Open []).InitializeDatabase = .ok (none, s') ∧
        s'.pairs = none ∧ ∀ stem, s'.GetDestination stem = .error .nilPointer) := by
  refine ⟨⟨StemDB.mk (goStr "stems.db") (goStr "links") (some [(goStr "stems", [])]),
    rfl, rfl, rfl, rfl, rfl, rfl, rfl⟩, ?_⟩
  intro path bucket hne
  have hpairs : (StemDB.mk path bucket (some [(goStr "stems", [])])).pairs = none := by
    rw [pairs_mk]
    simp only [seekGet]
    cases h : bytesCompare bucket (goStr "stems") with
    | lt => rfl
    | eq => exact absurd ((bytesCompare_eq_iff _ _).1 h) hne
    | gt => rfl
  exact ⟨StemDB.mk path bucket (some [(goStr "stems", [])]),
    InitializeDatabase_open path bucket [], hpairs,
    fun stem => GetDestination_of_no_pairs _ stem hpairs⟩

theorem afterInits_open (path bucket : GoString) (pages : BoltDB) (n : Nat) :
    (StemDB.mk path bucket (some pages)).afterInits (n + 1) =
      StemDB.mk path bucket (some
        (match seekGet (goStr "stems") pages with
          | some _ => pages
          | none => seekPut (goStr "stems") [] pages)) := by
  induction n with
  | zero => simp only [StemDB.afterInits, InitializeDatabase_open]
  | succ n ih =>
    rw [StemDB.afterInits, ih, InitializeDatabase_open]
    cases h : seekGet (goStr "stems") pages with
    | some Q => simp only [h]
    | none => simp only [seekGet_seekPut_self]

theorem afterInits_closed (path bucket : GoString) (n : Nat) :
    (NewStemDB path bucket).afterInits n = NewStemDB path bucket := by
  induction n with
  | zero => rfl
  | succ n ih =>
    rw [StemDB.afterInits, ih]
    rfl

/-- C6. For every open store, `InitializeDatabase` returns nil (also when the
collection exists already), the collection `stems` exists afterwards, calling it
n + 1 times leaves the store that calling it once leaves, every collection that
was there is still there with the entries it had, and every `GetDestination`
that found a destination before finds the same one after; on a store that is
not open every call panics and changes nothing. -/
theorem C6_InitializeDatabase_idempotent (path bucket : GoString) (pages : BoltDB) (n : Nat) :
    (NewStemDB path bucket).afterInits (n + 1) = (NewStemDB path bucket).afterInits 1 ∧
    ∃ pages1, (StemDB.mk path bucket (some pages)).InitializeDatabase =
        .ok (none, StemDB.mk path bucket (some pages1)) ∧
      (StemDB.mk path bucket (some pages)).afterInits (n + 1) =
        StemDB.mk path bucket (some pages1) ∧
      (StemDB.mk path bucket (some pages1)).InitializeDatabase =
        .ok (none, StemDB.mk path bucket (some pages1)) ∧
      (seekGet (goStr "stems") pages1).isSome = true ∧
      (∀ name P, seekGet name pages = some P → seekGet name pages1 = some P) ∧
      (∀ stem dest, (StemDB.mk path bucket (some pages)).GetDestination stem =
          .ok (true, dest) →
        (StemDB.mk path bucket (some pages1)).GetDestination stem = .ok (true, dest)) := by
  have hkeep : ∀ name P, seekGet name pages = some P →
      seekGet name (match seekGet (goStr "stems") pages with
        | some _ => pages
        | none => seekPut (goStr "stems") [] pages) = some P := by
    intro name P hP
    cases h : seekGet (goStr "stems") pages with
    | some Q => exact hP
    | none =>
      simp only
      have hne : name ≠ goStr "stems" := by
        intro heq
        rw [heq, h] at hP
        cases hP
      rw [seekGet_seekPut_ne _ _ _ _ hne]
      exact hP
  refine ⟨by rw [afterInits_closed, afterInits_closed], _,
    InitializeDatabase_open path bucket pages, afterInits_open path bucket pages n,
    ?_, ?_, hkeep, ?_⟩
  · rw [InitializeDatabase_open]
    cases h : seekGet (goStr "stems") pages with
    | some Q => simp only [h]
    | none => simp only [seekGet_seekPut_self]
  · cases h : seekGet (goStr "stems") pages with
    | some Q => simp only [h, Option.isSome]
    | none => simp only [seekGet_seekPut_self, Option.isSome]
  · intro stem dest hget
    cases hb : seekGet bucket pages with
    | none =>
      rw [GetDestination_of_no_pairs _ stem (by rw [pairs_mk]; exact hb)] at hget
      cases hget
    | some P =>
      rw [GetDestination_of_pairs _ P stem (by rw [pairs_mk]; exact hb)] at hget
      rw [GetDestination_of_pairs _ P stem (by rw [pairs_mk]; exact hkeep bucket P hb)]
      exact hget

/-! ## C7: the redirector -/

theorem hexEscapeNonASCII_ascii (s : GoString) (h : ∀ b ∈ s, b < 0x80) :
    hexEscapeNonASCII s = s := by
  induction s with
  | nil => rfl
  | cons b rest ih =>
    have hb : ¬ b ≥ 0x80 := by
      have := h b (List.mem_cons_self _ _)
      omega
    simp only [hexEscapeNonASCII, hb, if_false]
    rw [ih (fun c hc => h c (List.mem_cons_of_mem _ hc))]

theorem parsesRelative_of_hasScheme (url : GoString) (h : hasScheme url = true) :
    parsesRelative url = false := by
  unfold hasScheme at h
  unfold parsesRelative
  simp only
  split
  · rfl
  · split
    · rename_i hstar
      rw [hstar] at h
      simp [getScheme, getSchemeLoop] at h
    · cases hg : getScheme (cutAt 0x23 url).1 with
      | none => rfl
      | some r =>
        obtain ⟨scheme, rest⟩ := r
        rw [hg] at h
        have hs : scheme ≠ [] := by simpa using h
        simp only [hs, ne_eq, not_false_eq_true, if_true]

theorem dropWhile_head (f : Nat → Bool) (s : GoString)
    (h : ∀ b, s.head? = some b → f b = false) : s.dropWhile f = s := by
  cases s with
  | nil => rfl
  | cons b rest => simp [List.dropWhile, h b rfl]

theorem TrimString_plain (s : GoString)
    (hhead : ∀ b, s.head? = some b → isASCIISpace b = false)
    (hlast : ∀ b, s.getLast? = some b → isASCIISpace b = false) :
    TrimString s = s := by
  unfold TrimString
  rw [dropWhile_head isASCIISpace s hhead, dropWhile_head isASCIISpace s.reverse,
    List.reverse_reverse]
  intro b hb
  rw [List.head?_reverse] at hb
  exact hlast b hb

theorem headerValue_sentAsIs (v : GoString) (h : sentAsIs v = true) :
    headerValue v = v ∧ ∀ b ∈ v, b < 0x80 := by
  simp only [sentAsIs, Bool.and_eq_true, List.all_eq_true, decide_eq_true_eq] at h
  obtain ⟨⟨hall, hhead⟩, hlast⟩ := h
  have hmap : v.map (fun b => if b = 0x0A ∨ b = 0x0D then 0x20 else b) = v := by
    conv_rhs => rw [← List.map_id v]
    apply List.map_congr_left
    intro b hb
    have := hall b hb
    have hne : ¬ (b = 0x0A ∨ b = 0x0D) := by omega
    simp only [hne, if_false, id]
  refine ⟨?_, fun b hb => (hall b hb).1⟩
  unfold headerValue
  rw [hmap]
  apply TrimString_plain
  · intro b hb
    rw [hb] at hhead
    simpa using hhead
  · intro b hb
    rw [hb] at hlast
    simpa using hlast

/-- `http.Redirect` sends a target with a scheme that is sent as it is as the
`Location`. -/
theorem Redirect_absolute (r : Request) (url : GoString) (code : Nat)
    (hscheme : hasScheme url = true) (hplain : sentAsIs url = true) :
    http.Redirect r url code = .Redirect url code := by
  obtain ⟨hvalue, hascii⟩ := headerValue_sentAsIs url hplain
  simp only [http.Redirect, redirectLocation, parsesRelative_of_hasScheme url hscheme,
    Bool.false_eq_true, if_false, hexEscapeNonASCII_ascii url hascii, hvalue]

/-- On a clean path the mux calls the handler. -/
theorem redirectorMux_clean (stemdb : StemDB) (method body stem : GoString) (bodyErr : Bool)
    (hclean : cleanPath (0x2F :: stem) = 0x2F :: stem) :
    redirectorMux stemdb
        { Method := method, Path := 0x2F :: stem, Body := body, BodyErr := bodyErr } =
      redirectorHandler stemdb
        { Method := method, Path := 0x2F :: stem, Body := body, BodyErr := bodyErr } := by
  have hstar : ¬ (0x2F :: stem = [0x2A]) := by simp
  simp only [redirectorMux, hstar, hclean, ne_eq, not_true_eq_false, and_false, if_false,
    List.head?_cons, if_true]

theorem redirectorHandler_found (s : StemDB) (method body stem dest : GoString)
    (bodyErr : Bool) (hget : s.GetDestination stem = .ok (true, dest)) :
    redirectorHandler s
        { Method := method, Path := 0x2F :: stem, Body := body, BodyErr := bodyErr } =
      { w := [http.Redirect
            { Method := method, Path := 0x2F :: stem, Body := body, BodyErr := bodyErr }
            dest 302],
        panicked := none, stemdb := s } := by
  have hslice : sliceFrom (0x2F :: stem) 1 = .ok stem := by
    simp [sliceFrom]
  simp only [redirectorHandler, hslice, hget, if_true]

theorem redirectorHandler_not_found (s : StemDB) (method body stem dest : GoString)
    (bodyErr : Bool) (hget : s.GetDestination stem = .ok (false, dest)) :
    redirectorHandler s
        { Method := method, Path := 0x2F :: stem, Body := body, BodyErr := bodyErr } =
      { w := [.Error (goStr "I'm a teapot") 418], panicked := none, stemdb := s } := by
  have hslice : sliceFrom (0x2F :: stem) 1 = .ok stem := by
    simp [sliceFrom]
  have hteapot : StatusText 418 = goStr "I'm a teapot" := by decide
  simp only [redirectorHandler, hslice, hget, StatusTeapot, hteapot, Bool.false_eq_true,
    if_false]

/-- C7, as amended. For every request whose path is clean (the mux's
`cleanPath` leaves it as it is) the stem looked up is the path without its
leading separator. When `GetDestination` finds a destination the response is
HTTP 302 with the `Location` that `http.Redirect` derives from it, and that
`Location` is the stored destination when the destination has a URL scheme, no
byte from 0x80 on, no CR or LF and no blank at its end. When it finds none (so
for every clean path on an empty store) the response is HTTP 418 with the
status text as body. On a clean path the status and the `Location` do not
depend on the request method or body. -/
theorem C7_redirector (stemdb : StemDB) (method body : GoString) (bodyErr : Bool)
    (stem : GoString) (hclean : cleanPath (0x2F :: stem) = 0x2F :: stem) :
    (∀ dest, stemdb.GetDestination stem = .ok (true, dest) →
      redirectorMux stemdb
          { Method := method, Path := 0x2F :: stem, Body := body, BodyErr := bodyErr } =
        { w := [.Redirect (headerValue (redirectLocation (0x2F :: stem) dest)) 302],
          panicked := none, stemdb := stemdb } ∧
      (hasScheme dest = true → sentAsIs dest = true →
        redirectorMux stemdb
            { Method := method, Path := 0x2F :: stem, Body := body, BodyErr := bodyErr } =
          { w := [.Redirect dest 302], panicked := none, stemdb := stemdb })) ∧
    (∀ dest, stemdb.GetDestination stem = .ok (false, dest) →
      redirectorMux stemdb
          { Method := method, Path := 0x2F :: stem, Body := body, BodyErr := bodyErr } =
        { w := [.Error (goStr "I'm a teapot") 418], panicked := none, stemdb := stemdb }) ∧
    (stemdb.pairs = some [] →
      redirectorMux stemdb
          { Method := method, Path := 0x2F :: stem, Body := body, BodyErr := bodyErr } =
        { w := [.Error (goStr "I'm a teapot") 418], panicked := none, stemdb := stemdb }) ∧
    (∀ method' body' bodyErr',
      redirectorMux stemdb
          { Method := method', Path := 0x2F :: stem, Body := body', BodyErr := bodyErr' } =
        redirectorMux stemdb
          { Method := method, Path := 0x2F :: stem, Body := body, BodyErr := bodyErr }) := by
  refine ⟨?_, ?_, ?_, ?_⟩
  · intro dest hget
    have hcall := redirectorHandler_found stemdb method body stem dest bodyErr hget
    refine ⟨?_, ?_⟩
    · rw [redirectorMux_clean stemdb method body stem bodyErr hclean, hcall]
      rfl
    · intro hscheme hplain
      rw [redirectorMux_clean stemdb method body stem bodyErr hclean, hcall,
        Redirect_absolute _ dest 302 hscheme hplain]
  · intro dest hget
    rw [redirectorMux_clean stemdb method body stem bodyErr hclean]
    exact redirectorHandler_not_found stemdb method body stem dest bodyErr hget
  · intro hempty
    have hget := GetDestination_of_pairs stemdb [] stem hempty
    simp only [seekGet] at hget
    rw [redirectorMux_clean stemdb method body stem bodyErr hclean]
    exact redirectorHandler_not_found stemdb method body stem [] bodyErr hget
  · intro method' body' bodyErr'
    rw [redirectorMux_clean stemdb method body stem bodyErr hclean,
      redirectorMux_clean stemdb method' body' stem bodyErr' hclean]
    simp only [redirectorHandler, http.Redirect]

/-- C7, the amended statement at the path `/abc` on the store that maps `abc` to
`https://example.com`: the response is 302 with that destination as
`Location`. -/
theorem C7_redirector_witness :
    cleanPath (0x2F :: goStr "abc") = 0x2F :: goStr "abc" ∧
    ((mainStore (goStr "stems.db") []).afterSet (goStr "abc")
        (goStr "https://example.com")).GetDestination (goStr "abc") =
      .ok (true, goStr "https://example.com") ∧
    hasScheme (goStr "https://example.com") = true ∧
    sentAsIs (goStr "https://example.com") = true ∧
    redirectorMux ((mainStore (goStr "stems.db") []).afterSet (goStr "abc")
          (goStr "https://example.com"))
        { Method := goStr "GET", Path := 0x2F :: goStr "abc", Body := [], BodyErr := false } =
      { w := [.Redirect (goStr "https://example.com") 302], panicked := none,
        stemdb := (mainStore (goStr "stems.db") []).afterSet (goStr "abc")
          (goStr "https://example.com") } :=
  ⟨by decide, rfl, by decide, by decide,
    ((C7_redirector ((mainStore (goStr "stems.db") []).afterSet (goStr "abc")
        (goStr "https://example.com")) (goStr "GET") [] false (goStr "abc") (by decide)).1
      (goStr "https://example.com") rfl).2 (by decide) (by decide)⟩

/-- C7 as stated fails in these ways. With `abc` stored as `example.com/x`, a
destination without a scheme, `GET /abc` is answered 302 with the `Location`
`/example.com/x`, not the stored destination. With `abc` stored as `http://é`
(the last two bytes C3 A9) the `Location` is `http://%c3%a9`, and stored as
`http://a`, a line feed, `b`, the `Location` has a blank for the line feed. And
on the empty store `GET /a//b` is answered by the mux with its redirect to
`/a/b`, not with 418. -/
theorem C7_counterexample :
    ((mainStore (goStr "stems.db") []).afterSet (goStr "abc")
        (goStr "example.com/x")).GetDestination (goStr "abc") =
      .ok (true, goStr "example.com/x") ∧
    redirectorMux ((mainStore (goStr "stems.db") []).afterSet (goStr "abc")
          (goStr "example.com/x"))
        { Method := goStr "GET", Path := goStr "/abc", Body := [], BodyErr := false } =
      { w := [.Redirect (goStr "/example.com/x") 302], panicked := none,
        stemdb := (mainStore (goStr "stems.db") []).afterSet (goStr "abc")
          (goStr "example.com/x") } ∧
    ((mainStore (goStr "stems.db") []).afterSet (goStr "abc")
        (goStr "http://" ++ [0xC3, 0xA9])).GetDestination (goStr "abc") =
      .ok (true, goStr "http://" ++ [0xC3, 0xA9]) ∧
    redirectorMux ((mainStore (goStr "stems.db") []).afterSet (goStr "abc")
          (goStr "http://" ++ [0xC3, 0xA9]))
        { Method := goStr "GET", Path := goStr "/abc", Body := [], BodyErr := false } =
      { w := [.Redirect (goStr "http://%c3%a9") 302], panicked := none,
        stemdb := (mainStore (goStr "stems.db") []).afterSet (goStr "abc")
          (goStr "http://" ++ [0xC3, 0xA9]) } ∧
    ((mainStore (goStr "stems.db") []).afterSet (goStr "abc")
        (goStr "http://a" ++ 0x0A :: goStr "b")).GetDestination (goStr "abc") =
      .ok (true, goStr "http://a" ++ 0x0A :: goStr "b") ∧
    redirectorMux ((mainStore (goStr "stems.db") []).afterSet (goStr "abc")
          (goStr "http://a" ++ 0x0A :: goStr "b"))
        { Method := goStr "GET", Path := goStr "/abc", Body := [], BodyErr := false } =
      { w := [.Redirect (goStr "http://a b") 302], panicked := none,
        stemdb := (mainStore (goStr "stems.db") []).afterSet (goStr "abc")
          (goStr "http://a" ++ 0x0A :: goStr "b") } ∧
    (mainStore (goStr "stems.db") []).pairs = some [] ∧
    redirectorMux (mainStore (goStr "stems.db") [])
        { Method := goStr "GET", Path := goStr "/a//b", Body := [], BodyErr := false } =
      { w := [.MuxRedirect (goStr "/a/b") 301], panicked := none,
        stemdb := mainStore (goStr "stems.db") [] } := by
  refine ⟨rfl, by decide, rfl, by decide, rfl, by decide, rfl, by decide⟩

/-! ## C8, C9, C10: the admin handler -/

theorem matchStemsStar_stems (rest : GoString) :
    matchStemsStar (goStr "/stems/" ++ rest) = some (0x2F :: rest) := by
  have hlit : goStr "/stems/" = [47, 115, 116, 101, 109, 115, 47] := by decide
  simp [matchStemsStar, hlit]

theorem adminPut_stems (stemdb : StemDB) (rest body : GoString) (bodyErr : Bool) :
    adminPut stemdb
        { Method := goStr "PUT", Path := goStr "/stems/" ++ rest, Body := body,
          BodyErr := bodyErr } =
      some (adminPutHandler stemdb (0x2F :: rest)
        { Method := goStr "PUT", Path := goStr "/stems/" ++ rest, Body := body,
          BodyErr := bodyErr }) := by
  simp only [adminPut, matchStemsStar_stems, if_true]

/-- C8, as amended. For every `PUT` under `/stems/` whose body is read without
an error, the response is HTTP 406 if and only if the body, after trimming
surrounding white space, is shorter than 4 bytes; and whenever the response is
406 the store is the one before the request. -/
theorem C8_put_validation (stemdb : StemDB) (rest body : GoString) :
    ∃ served, adminPut stemdb
        { Method := goStr "PUT", Path := goStr "/stems/" ++ rest, Body := body,
          BodyErr := false } = some served ∧
      (served.status = some 406 ↔ (TrimSpace body).length < 4) ∧
      (served.status = some 406 → served.stemdb = stemdb) := by
  refine ⟨_, adminPut_stems stemdb rest body false, ?_⟩
  have hslice : sliceFrom (0x2F :: rest) 1 = .ok rest := by
    simp [sliceFrom]
  by_cases hlen : (TrimSpace body).length < 4
  · simp [adminPutHandler, hlen, Served.status, Reply.code, StatusNotAcceptable]
  · cases hset : stemdb.SetDestination rest (TrimSpace body) with
    | error p =>
      simp [adminPutHandler, hlen, hslice, hset, Served.status]
    | ok r =>
      obtain ⟨err, s'⟩ := r
      simp [adminPutHandler, hlen, hslice, hset, Served.status, Reply.code, StatusCreated]

/-- C8 as stated fails for a body of fewer than 4 characters that has 4 bytes:
the body `éé` (bytes C3 A9 C3 A9) is its own trimmed value, 2 characters long,
and `PUT /stems/x` with it on the initialized empty store responds 201 and
stores it. -/
theorem C8_counterexample :
    TrimSpace [0xC3, 0xA9, 0xC3, 0xA9] = [0xC3, 0xA9, 0xC3, 0xA9] ∧
    RuneCountInString (TrimSpace [0xC3, 0xA9, 0xC3, 0xA9]) = 2 ∧
    (adminPut (mainStore (goStr "stems.db") [])
        { Method := goStr "PUT", Path := goStr "/stems/x", Body := [0xC3, 0xA9, 0xC3, 0xA9],
          BodyErr := false }).map Served.status = some (some 201) ∧
    (adminPut (mainStore (goStr "stems.db") [])
        { Method := goStr "PUT", Path := goStr "/stems/x", Body := [0xC3, 0xA9, 0xC3, 0xA9],
          BodyErr := false }).map (fun served => served.stemdb.GetDestination (goStr "x")) =
      some (.ok (true, [0xC3, 0xA9, 0xC3, 0xA9])) := by
  refine ⟨by decide, by decide, rfl, rfl⟩

/-- C9, on the code. The handler drops the error of `SetDestination`: for
`PUT /stems/` with the body `https://example.com` on the initialized empty
store the stem is the empty one, `SetDestination` returns `ErrKeyRequired`, the
handler still responds 201, and the mapping is not there afterwards; and for
no request whose body is read without an error does the handler respond 500. -/
theorem C9_put_drops_write_error :
    4 ≤ (TrimSpace (goStr "https://example.com")).length ∧
    (mainStore (goStr "stems.db") []).SetDestination [] (goStr "https://example.com") =
      .ok (some .ErrKeyRequired, mainStore (goStr "stems.db") []) ∧
    adminPut (mainStore (goStr "stems.db") [])
        { Method := goStr "PUT", Path := goStr "/stems/", Body := goStr "https://example.com",
          BodyErr := false } =
      some { w := [.Error (goStr "Created") 201], panicked := none,
             stemdb := mainStore (goStr "stems.db") [] } ∧
    (mainStore (goStr "stems.db") []).GetDestination [] = .ok (false, []) ∧
    (∀ (stemdb : StemDB) (rest body : GoString),
      ∃ served, adminPut stemdb
          { Method := goStr "PUT", Path := goStr "/stems/" ++ rest, Body := body,
            BodyErr := false } = some served ∧
        served.status ≠ some 500) := by
  refine ⟨by decide, rfl, by decide, rfl, ?_⟩
  intro stemdb rest body
  refine ⟨_, adminPut_stems stemdb rest body false, ?_⟩
  have hslice : sliceFrom (0x2F :: rest) 1 = .ok rest := by
    simp [sliceFrom]
  by_cases hlen : (TrimSpace body).length < 4
  · simp [adminPutHandler, hlen, Served.status, Reply.code, StatusNotAcceptable]
  · cases hset : stemdb.SetDestination rest (TrimSpace body) with
    | error p =>
      simp [adminPutHandler, hlen, hslice, hset, Served.status]
    | ok r =>
      obtain ⟨err, s'⟩ := r
      simp [adminPutHandler, hlen, hslice, hset, Served.status, Reply.code, StatusCreated]

theorem adminPut_refused (path bucket : GoString) (pages : BoltDB) (P : Pairs GoString)
    (rest body : GoString) (hP : seekGet bucket pages = some P)
    (hlen : ¬ (TrimSpace body).length < 4)
    (hk : putTaken (rest, TrimSpace body) = false) :
    adminPut (StemDB.mk path bucket (some pages))
        { Method := goStr "PUT", Path := goStr "/stems/" ++ rest, Body := body,
          BodyErr := false } =
      some { w := [.Error (goStr "Created") 201], panicked := none,
             stemdb := StemDB.mk path bucket (some pages) } := by
  have hslice : sliceFrom (0x2F :: rest) 1 = .ok rest := by
    simp [sliceFrom]
  have hcreated : StatusText 201 = goStr "Created" := by decide
  obtain ⟨err, hset⟩ := SetDestination_refused path bucket pages P rest (TrimSpace body) hP hk
  rw [adminPut_stems]
  simp only [adminPutHandler, hlen, hslice, hset, if_false, Bool.false_eq_true,
    List.nil_append, StatusCreated, hcreated]

/-- C10, as amended. On an initialized store, for every stem of 1 to 32768
bytes whose path `/<stem>` is clean and every body, read without an error,
whose trimmed value has at least 4 characters and at most 2^31 - 2 bytes, a URL
scheme, no byte from 0x80 on and no CR or LF, `PUT /stems/<stem>` responds HTTP 201 and
stores the trimmed body under the path remainder after `/stems/` (the store is
the one `SetDestination(stem, trimmed body)` leaves), so that a following
request for `/<stem>` on the redirector responds HTTP 302 with `Location` equal
to the trimmed body. -/
theorem C10_put_then_redirect (s : StemDB) (P : Pairs GoString) (stem body : GoString)
    (method' body' : GoString) (bodyErr' : Bool)
    (hinit : s.pairs = some P)
    (hstem : 1 ≤ stem.length ∧ stem.length ≤ MaxKeySize)
    (hclean : cleanPath (0x2F :: stem) = 0x2F :: stem)
    (hbody : (TrimSpace body).length ≤ MaxValueSize)
    (htrim : 4 ≤ RuneCountInString (TrimSpace body))
    (hscheme : hasScheme (TrimSpace body) = true)
    (hplain : sentAsIs (TrimSpace body) = true) :
    ∃ served, adminPut s
        { Method := goStr "PUT", Path := goStr "/stems/" ++ stem, Body := body,
          BodyErr := false } = some served ∧
      served.status = some 201 ∧
      served.stemdb = s.afterSet stem (TrimSpace body) ∧
      served.stemdb.GetDestination stem = .ok (true, TrimSpace body) ∧
      redirectorMux served.stemdb
          { Method := method', Path := 0x2F :: stem, Body := body', BodyErr := bodyErr' } =
        { w := [.Redirect (TrimSpace body) 302], panicked := none,
          stemdb := served.stemdb } := by
  have hlen : ¬ (TrimSpace body).length < 4 := by
    have := RuneCountInString_le (TrimSpace body)
    omega
  have hslice : sliceFrom (0x2F :: stem) 1 = .ok stem := by
    simp [sliceFrom]
  obtain ⟨s', hset, hget⟩ := set_then_get s P stem (TrimSpace body) hinit hstem hbody
  refine ⟨_, adminPut_stems s stem body false, ?_⟩
  have hafter : s.afterSet stem (TrimSpace body) = s' := by
    simp only [StemDB.afterSet, hset]
  have hredirect := redirectorHandler_found s' method' body' stem (TrimSpace body) bodyErr' hget
  rw [Redirect_absolute _ _ 302 hscheme hplain] at hredirect
  simp only [adminPutHandler, hlen, hslice, hset, if_false, Bool.false_eq_true,
    List.nil_append, hafter, hget, Served.status, List.head?, Option.map, Reply.code,
    StatusCreated, true_and,
    redirectorMux_clean s' method' body' stem bodyErr' hclean, hredirect]

/-- C10, the amended statement at the store `main` starts from an empty file:
`PUT /stems/abc` with the body `https://example.com`, then `GET /abc`. -/
theorem C10_put_then_redirect_witness :
    (mainStore (goStr "stems.db") []).pairs = some [] ∧
    (1 ≤ (goStr "abc").length ∧ (goStr "abc").length ≤ MaxKeySize) ∧
    cleanPath (0x2F :: goStr "abc") = 0x2F :: goStr "abc" ∧
    (TrimSpace (goStr "https://example.com")).length ≤ MaxValueSize ∧
    4 ≤ RuneCountInString (TrimSpace (goStr "https://example.com")) ∧
    hasScheme (TrimSpace (goStr "https://example.com")) = true ∧
    sentAsIs (TrimSpace (goStr "https://example.com")) = true ∧
    TrimSpace (goStr "https://example.com") = goStr "https://example.com" ∧
    ∃ served, adminPut (mainStore (goStr "stems.db") [])
        { Method := goStr "PUT", Path := goStr "/stems/" ++ goStr "abc",
          Body := goStr "https://example.com", BodyErr := false } = some served ∧
      served.status = some 201 ∧
      served.stemdb = (mainStore (goStr "stems.db") []).afterSet (goStr "abc")
        (TrimSpace (goStr "https://example.com")) ∧
      served.stemdb.GetDestination (goStr "abc") =
        .ok (true, TrimSpace (goStr "https://example.com")) ∧
      redirectorMux served.stemdb
          { Method := goStr "GET", Path := 0x2F :: goStr "abc", Body := [],
            BodyErr := false } =
        { w := [.Redirect (TrimSpace (goStr "https://example.com")) 302], panicked := none,
          stemdb := served.stemdb } :=
  ⟨rfl, by decide, by decide, by decide, by decide, by decide, by decide, by decide,
    C10_put_then_redirect (mainStore (goStr "stems.db") []) [] (goStr "abc")
      (goStr "https://example.com") (goStr "GET") [] false rfl (by decide) (by decide)
      (by decide) (by decide) (by decide) (by decide)⟩

/-- C10 as stated fails in three ways. At the empty stem, `PUT /stems/` with the
body `https://example.com` on the initialized empty store responds 201 and
stores nothing, and the following request for `/` is answered with 418. At the
stem `a//b`, `PUT /stems/a//b` responds 201 and stores the body, and the
following request for `/a//b` is answered by the mux with its redirect to
`/a/b`, not with 302 to the body. With the body `example.com/x`, which has no
scheme, `PUT /stems/abc` responds 201 and the following request for `/abc` is
answered 302 with the `Location` `/example.com/x`, not the body. -/
theorem C10_counterexample :
    (mainStore (goStr "stems.db") []).pairs = some [] ∧
    4 ≤ RuneCountInString (TrimSpace (goStr "https://example.com")) ∧
    adminPut (mainStore (goStr "stems.db") [])
        { Method := goStr "PUT", Path := goStr "/stems/" ++ [],
          Body := goStr "https://example.com", BodyErr := false } =
      some { w := [.Error (goStr "Created") 201], panicked := none,
             stemdb := mainStore (goStr "stems.db") [] } ∧
    redirectorMux (mainStore (goStr "stems.db") [])
        { Method := goStr "GET", Path := 0x2F :: [], Body := [], BodyErr := false } =
      { w := [.Error (goStr "I'm a teapot") 418], panicked := none,
        stemdb := mainStore (goStr "stems.db") [] } ∧
    adminPut (mainStore (goStr "stems.db") [])
        { Method := goStr "PUT", Path := goStr "/stems/" ++ goStr "a//b",
          Body := goStr "https://example.com", BodyErr := false } =
      some { w := [.Error (goStr "Created") 201], panicked := none,
             stemdb := (mainStore (goStr "stems.db") []).afterSet (goStr "a//b")
               (goStr "https://example.com") } ∧
    ((mainStore (goStr "stems.db") []).afterSet (goStr "a//b")
        (goStr "https://example.com")).GetDestination (goStr "a//b") =
      .ok (true, goStr "https://example.com") ∧
    redirectorMux ((mainStore (goStr "stems.db") []).afterSet (goStr "a//b")
          (goStr "https://example.com"))
        { Method := goStr "GET", Path := 0x2F :: goStr "a//b", Body := [],
          BodyErr := false } =
      { w := [.MuxRedirect (goStr "/a/b") 301], panicked := none,
        stemdb := (mainStore (goStr "stems.db") []).afterSet (goStr "a//b")
          (goStr "https://example.com") } ∧
    4 ≤ RuneCountInString (TrimSpace (goStr "example.com/x")) ∧
    adminPut (mainStore (goStr "stems.db") [])
        { Method := goStr "PUT", Path := goStr "/stems/" ++ goStr "abc",
          Body := goStr "example.com/x", BodyErr := false } =
      some { w := [.Error (goStr "Created") 201], panicked := none,
             stemdb := (mainStore (goStr "stems.db") []).afterSet (goStr "abc")
               (goStr "example.com/x") } ∧
    redirectorMux ((mainStore (goStr "stems.db") []).afterSet (goStr "abc")
          (goStr "example.com/x"))
        { Method := goStr "GET", Path := 0x2F :: goStr "abc", Body := [],
          BodyErr := false } =
      { w := [.Redirect (goStr "/example.com/x") 302], panicked := none,
        stemdb := (mainStore (goStr "stems.db") []).afterSet (goStr "abc")
          (goStr "example.com/x") } := by
  refine ⟨rfl, by decide, by decide, by decide, by decide, rfl, by decide, by decide,
    by decide, by decide⟩

/-! ## Further properties of the store and the admin handler -/

/-- X1. `SetDestination(a, d)` leaves what `GetDestination` returns for every
other stem. -/
theorem X1_set_keeps_other_stems (s : StemDB) (a b d : GoString) (hne : b ≠ a) :
    (s.afterSet a d).GetDestination b = s.GetDestination b := by
  cases hp : s.pairs with
  | none => rw [afterSet_of_no_pairs s a d hp]
  | some P =>
    rw [GetDestination_of_pairs _ _ b (afterSet_pairs s P a d hp),
      GetDestination_of_pairs s P b hp]
    cases putTaken (a, d) with
    | false => rfl
    | true => simp only [if_true, seekGet_seekPut_ne a b d P hne]

/-- X1 on the store `main` starts from an empty file with
`b` written: writing `a` leaves the destination of `b`. -/
theorem X1_set_keeps_other_stems_witness :
    goStr "b" ≠ goStr "a" ∧
    (((mainStore (goStr "stems.db") []).afterSet (goStr "b")
        (goStr "https://b.example")).afterSet (goStr "a")
        (goStr "https://a.example")).GetDestination (goStr "b") =
      ((mainStore (goStr "stems.db") []).afterSet (goStr "b")
        (goStr "https://b.example")).GetDestination (goStr "b") :=
  ⟨by decide, X1_set_keeps_other_stems _ (goStr "a") (goStr "b") (goStr "https://a.example")
    (by decide)⟩

/-- X2. When reading the body fails, the admin handler writes the 500 response
and goes on: the status the client gets is 500 unless the handler panics, and when
the bytes that were read trim to 4 bytes or more the store is the one
`SetDestination(stem, trimmed bytes)` leaves. -/
theorem X2_put_read_error_goes_on (stemdb : StemDB) (rest body : GoString) :
    ∃ served, adminPut stemdb
        { Method := goStr "PUT", Path := goStr "/stems/" ++ rest, Body := body,
          BodyErr := true } = some served ∧
      (served.panicked = none → served.status = some 500) ∧
      (¬ (TrimSpace body).length < 4 →
        served.stemdb = stemdb.afterSet rest (TrimSpace body)) := by
  refine ⟨_, adminPut_stems stemdb rest body true, ?_⟩
  have hslice : sliceFrom (0x2F :: rest) 1 = .ok rest := by
    simp [sliceFrom]
  by_cases hlen : (TrimSpace body).length < 4
  · simp [adminPutHandler, hlen, Served.status, Reply.code, StatusInternalServerError]
  · cases hset : stemdb.SetDestination rest (TrimSpace body) with
    | error p =>
      simp [adminPutHandler, hlen, hslice, hset, StemDB.afterSet]
    | ok r =>
      obtain ⟨err, s'⟩ := r
      simp [adminPutHandler, hlen, hslice, hset, Served.status, Reply.code,
        StatusInternalServerError, StemDB.afterSet]

/-- X3. `SetDestination` keeps the entries of the collection in strictly
ascending key order, and `GetStems` then sends them in that order and closes the sink. -/
theorem X3_set_keeps_order (s : StemDB) (P : Pairs GoString) (stem dest : GoString)
    (hinit : s.pairs = some P) (hasc : Ascending P) :
    ∃ Q, (s.afterSet stem dest).pairs = some Q ∧ Ascending Q ∧
      ∃ sent, (s.afterSet stem dest).GetStems Chan.make =
          .ok (none, { sent := sent, closed := true }) ∧
        sent.Pairwise (fun a b => bytesCompare a.Stem b.Stem = .lt) := by
  have hpairs := afterSet_pairs s P stem dest hinit
  have hQ : Ascending (if putTaken (stem, dest) = true then seekPut stem dest P else P) := by
    split
    · exact Ascending_seekPut stem dest P hasc
    · exact hasc
  refine ⟨_, hpairs, hQ, _, GetStems_of_pairs _ _ hpairs, ?_⟩
  rw [List.pairwise_map]
  exact hQ

/-- X3 on the store `main` starts from an empty file, writing the stem `a`. -/
theorem X3_set_keeps_order_witness :
    (mainStore (goStr "stems.db") []).pairs = some [] ∧ Ascending ([] : Pairs GoString) ∧
    ∃ Q, ((mainStore (goStr "stems.db") []).afterSet (goStr "a")
        (goStr "https://a.example")).pairs = some Q ∧ Ascending Q ∧
      ∃ sent, ((mainStore (goStr "stems.db") []).afterSet (goStr "a")
          (goStr "https://a.example")).GetStems Chan.make =
          .ok (none, { sent := sent, closed := true }) ∧
        sent.Pairwise (fun a b => bytesCompare a.Stem b.Stem = .lt) :=
  ⟨rfl, List.Pairwise.nil,
    X3_set_keeps_order (mainStore (goStr "stems.db") []) [] (goStr "a")
      (goStr "https://a.example") rfl List.Pairwise.nil⟩

/-- X4. The fourth end-to-end scenario: `PUT /stems/a` with `https://one.example`,
then `PUT /stems/a` with `https://two.example`, both answered with 201; the
listing's scan `GetStems` then sends the one pair `a`, `https://two.example`. -/
theorem X4_two_puts_then_listing :
    ∃ first second,
      adminPut (mainStore (goStr "stems.db") [])
          { Method := goStr "PUT", Path := goStr "/stems/a",
            Body := goStr "https://one.example", BodyErr := false } = some first ∧
      first.status = some 201 ∧
      adminPut first.stemdb
          { Method := goStr "PUT", Path := goStr "/stems/a",
            Body := goStr "https://two.example", BodyErr := false } = some second ∧
      second.status = some 201 ∧
      second.stemdb.GetStems Chan.make =
        .ok (none, { sent := [{ Stem := goStr "a", Dest := goStr "https://two.example" }],
                     closed := true }) :=
  ⟨_, _, rfl, rfl, rfl, rfl, rfl⟩

end Director
